import Mathlib

/-!
Shallow embedding of `src/export_to_s3.py` (an ingestion script that fetches
database tables as pandas DataFrames, sanitizes textual columns, casts columns
to a declared schema, serializes to newline-delimited JSON and uploads to S3).

Modelling conventions:
- A pandas DataFrame is a row count plus a list of named, dtyped columns.
- Python scalars held in a column are `Cell`s; pandas float64 values are
  modelled as exact rationals (binary rounding is abstracted away; every
  value actually produced by the script is parsed from and re-printed to
  short decimal text, where `repr` round-trips exactly).
- `pd.to_numeric(..., errors="coerce", downcast=...)`,
  `pd.to_datetime(...).dt.strftime(...)`, `.astype(str)`, the two regex
  replaces of `clean_dataframe`, and `json.dumps(..., ensure_ascii=False)`
  are modelled column- and character-faithfully (see each definition).
  The permissive `dateutil` parser behind `pd.to_datetime` is modelled on the
  ISO forms `YYYY-MM-DD` and `YYYY-MM-DD[ T]HH:MM:SS` (everything else,
  including epoch-number interpretation of numeric cells, coerces to NaT).
- The orchestrator (`main`) is a fold over the `TABLES` catalog; Python
  exceptions raised inside the per-table `try` block are modelled by an
  environment that can make `fetch` fail and can inject a raised exception
  at each later stage (`clean_dataframe`, `cast_types`, `export_to_ndjson`,
  `subir_a_s3_json`).  An S3 upload failure is not a raised exception for
  the caller: `subir_a_s3_json` catches it internally, so it is a separate
  boolean in the environment.
-/

namespace Ingesta

/-- Decimal digit characters 0-9 (total; arguments are always < 10 here). -/
def dChar : Nat → Char
  | 0 => '0'
  | 1 => '1'
  | 2 => '2'
  | 3 => '3'
  | 4 => '4'
  | 5 => '5'
  | 6 => '6'
  | 7 => '7'
  | 8 => '8'
  | _ => '9'

/-- Numeric value of a digit character. -/
def digVal (c : Char) : Nat := c.toNat - 48

/-- Whether a character is an ASCII decimal digit. -/
def isDigitC (c : Char) : Bool := 48 ≤ c.toNat && c.toNat ≤ 57

/-- Value of a most-significant-first digit string. -/
def digitsVal (l : List Char) : Nat := l.foldl (fun a c => a * 10 + digVal c) 0

/-- Decimal digits of a natural number, most significant first, by
fuel-bounded structural recursion (`fuel = n + 1` always suffices, since the
recursion divides `n` by 10 at every step). -/
def natDigitsAux : Nat → Nat → List Char
  | 0, _ => []
  | fuel + 1, n =>
      if n < 10 then [dChar n]
      else natDigitsAux fuel (n / 10) ++ [dChar (n % 10)]

/-- Decimal digits of a natural number, most significant first. -/
def natDigits (n : Nat) : List Char := natDigitsAux (n + 1) n

/-- Left-pad a digit list with zeros to length `k`. -/
def padTo (k : Nat) (l : List Char) : List Char :=
  List.replicate (k - l.length) '0' ++ l

/-- Zero-padded two-digit rendering (strftime `%m`, `%d`, `%H`, `%M`, `%S`). -/
def pad2 (n : Nat) : List Char := padTo 2 (natDigits n)

/-- Zero-padded four-digit rendering (strftime `%Y`). -/
def pad4 (n : Nat) : List Char := padTo 4 (natDigits n)

/-- A Python scalar as stored in a pandas column.  `null` is Python `None`,
`nan` is the float NaN that pandas uses for missing numeric/derived data. -/
inductive Cell
  | null
  | nan
  | int (n : ℤ)
  | float (q : ℚ)
  | str (s : String)
  | bool (b : Bool)
deriving DecidableEq

/-- The pandas dtype of a column, as far as the script's behavior depends on
it (`select_dtypes(include=["object","bool"])` and int-vs-float rendering). -/
inductive Dtype
  | obj
  | boolDt
  | intDt
  | floatDt
deriving DecidableEq

/-- One pandas column: label, dtype and cells in row order. -/
structure Col where
  name : String
  dtype : Dtype
  cells : List Cell
deriving DecidableEq

/-- A pandas DataFrame: an explicit row count and the columns in order.
Well-formed frames have every column of length `nrows`. -/
structure DataFrame where
  nrows : Nat
  cols : List Col
deriving DecidableEq

/-- Default column used with `List.getD`. -/
def dummyCol : Col := ⟨(""), Dtype.obj, []⟩

/-- Python `repr`/`str` of an integer. -/
def renderInt (n : ℤ) : List Char :=
  if n < 0 then '-' :: natDigits n.natAbs else natDigits n.natAbs

/-- Smallest exponent `k ≤ 1100` with `den ∣ 10^k`; float64 denominators are
powers of two below `2^1075`, so every representable value is covered. -/
def decExp (den : Nat) : Option Nat :=
  (List.range 1100).find? (fun k => den ∣ 10 ^ k)

/-- Python `repr` of a (finite) float, modelled on exact decimals: integral
values print with a trailing `.0`, fractional decimal values positionally.
Python's switch to exponent notation at extreme magnitudes and float32/64
rounding are abstracted away; rationals that are not decimal fractions (never
produced by the script) fall back to a `num/den` rendering. -/
def renderFloat (q : ℚ) : List Char :=
  if q.den = 1 then renderInt q.num ++ ['.', '0']
  else
    match decExp q.den with
    | some k =>
        let N : ℤ := q.num * ((10 ^ k) / q.den : ℕ)
        let digs := padTo (k + 1) (natDigits N.natAbs)
        (if q.num < 0 then ['-'] else []) ++
          digs.take (digs.length - k) ++ '.' :: digs.drop (digs.length - k)
    | none => renderInt q.num ++ '/' :: natDigits q.den

/-- Python `str()` of a cell, as `.astype(str)` applies it elementwise:
`None ↦ "None"`, NaN ↦ `"nan"`, bools ↦ `"True"/"False"`. -/
def pyStr : Cell → String
  | Cell.null => ("None")
  | Cell.nan => ("nan")
  | Cell.int n => String.mk (renderInt n)
  | Cell.float q => String.mk (renderFloat q)
  | Cell.str s => s
  | Cell.bool b => if b then ("True") else ("False")

/-- First regex of `clean_dataframe`: `[\r\n\t]` ↦ one space. -/
def replCtl (c : Char) : Char :=
  if c = '\r' ∨ c = '\n' ∨ c = '\t' then ' ' else c

/-- Second regex of `clean_dataframe`: keep only `[\x20-\x7E]` and the six
accented letters `áéíóúñ`; everything else is removed. -/
def inWhitelist (c : Char) : Bool :=
  (32 ≤ c.toNat && c.toNat ≤ 126) || c = 'á' || c = 'é' || c = 'í' ||
    c = 'ó' || c = 'ú' || c = 'ñ'

/-- The two chained `.str.replace` calls of `clean_dataframe`. -/
def sanitizeStr (s : String) : String :=
  String.mk ((s.data.map replCtl).filter inWhitelist)

/-- Effect of `clean_dataframe` on one column: object- and bool-dtyped
columns are stringified and sanitized (result dtype object), all other
columns pass through untouched. -/
def cleanCol (c : Col) : Col :=
  if c.dtype = Dtype.obj ∨ c.dtype = Dtype.boolDt then
    ⟨c.name, Dtype.obj, c.cells.map (fun x => Cell.str (sanitizeStr (pyStr x)))⟩
  else c

/-- `clean_dataframe(df)`: sanitize every object/bool column in place. -/
def clean_dataframe (df : DataFrame) : DataFrame :=
  ⟨df.nrows, df.cols.map cleanCol⟩

/-- Longest digit prefix and the rest. -/
def spanDigits (l : List Char) : List Char × List Char :=
  (l.takeWhile isDigitC, l.dropWhile isDigitC)

/-- The boundary condition after a serialized number: the next character (if
any) is neither a digit nor a decimal point, as is the case for `,`, `\x7d`
and space. -/
def numBd (l : List Char) : Prop :=
  ∀ c, l.head? = some c → isDigitC c = false ∧ c ≠ '.'

/-- Exponent suffix of a numeric literal (after `e`/`E`), must end the
string. -/
def parseExpPart (l : List Char) : Option ℤ :=
  match l with
  | '+' :: r =>
      let p := spanDigits r
      if p.1 ≠ [] ∧ p.2 = [] then some (digitsVal p.1 : ℤ) else none
  | '-' :: r =>
      let p := spanDigits r
      if p.1 ≠ [] ∧ p.2 = [] then some (-(digitsVal p.1 : ℤ)) else none
  | r =>
      let p := spanDigits r
      if p.1 ≠ [] ∧ p.2 = [] then some (digitsVal p.1 : ℤ) else none

/-- Unsigned mantissa `ddd`, `ddd.ddd`, `ddd.` or `.ddd` of a numeric
literal; returns its value and the unconsumed rest. -/
def parseMantissa (l : List Char) : Option (ℚ × List Char) :=
  let p := spanDigits l
  match p.2 with
  | '.' :: r2 =>
      let f := spanDigits r2
      if p.1 = [] ∧ f.1 = [] then none
      else some ((digitsVal p.1 : ℚ) + (digitsVal f.1 : ℚ) / 10 ^ f.1.length, f.2)
  | _ => if p.1 = [] then none else some ((digitsVal p.1 : ℚ), p.2)

/-- Numeric-string acceptance of `pd.to_numeric`: optional sign, decimal
mantissa, optional exponent.  (`inf`/`nan` literals and surrounding
whitespace are abstracted as unparsable.) -/
def parseNumChars (l : List Char) : Option ℚ :=
  let sp : ℚ × List Char :=
    match l with
    | '-' :: r => (-1, r)
    | '+' :: r => (1, r)
    | r => (1, r)
  match parseMantissa sp.2 with
  | none => none
  | some (m, rest) =>
      match rest with
      | [] => some (sp.1 * m)
      | 'e' :: r => (parseExpPart r).map (fun e => sp.1 * m * (10 : ℚ) ^ e)
      | 'E' :: r => (parseExpPart r).map (fun e => sp.1 * m * (10 : ℚ) ^ e)
      | _ => none

/-- Numeric parse of a string cell. -/
def parseNumQ (s : String) : Option ℚ := parseNumChars s.data

/-- What `pd.to_numeric(..., errors="coerce")` makes of one cell: numbers
pass through, bools become 0/1, strings are parsed, everything else (None,
NaN, unparsable text) coerces to missing. -/
def cellToNum : Cell → Option ℚ
  | Cell.null => none
  | Cell.nan => none
  | Cell.int n => some (n : ℚ)
  | Cell.float q => some q
  | Cell.bool b => some (if b then 1 else 0)
  | Cell.str s => parseNumQ s

/-- Integer cell for a parsed value (used only when the whole column is
integral and complete, i.e. the `downcast="integer"` branch applies). -/
def intCellOfOpt : Option ℚ → Cell
  | some q => Cell.int q.num
  | none => Cell.int 0

/-- Float cell for a parsed value; missing parses become NaN. -/
def floatCellOfOpt : Option ℚ → Cell
  | some q => Cell.float q
  | none => Cell.nan

/-- Whether a parsed value is present and integral. -/
def isIntegralSome : Option ℚ → Bool
  | some q => q.den == 1
  | none => false

/-- `pd.to_numeric(col, errors="coerce", downcast="integer")` (the `bigint`
and `int` schema rules): if every cell parses to an integral value the column
downcasts to an integer dtype; otherwise (any missing or fractional value)
the column is float and missing values are NaN. -/
def to_numeric_int (c : Col) : Col :=
  if (c.cells.map cellToNum).all isIntegralSome then
    ⟨c.name, Dtype.intDt, (c.cells.map cellToNum).map intCellOfOpt⟩
  else ⟨c.name, Dtype.floatDt, (c.cells.map cellToNum).map floatCellOfOpt⟩

/-- `pd.to_numeric(col, errors="coerce", downcast="float")` (the `double`
schema rule): the column is float, missing values are NaN (the float32
downcast's precision loss is abstracted away). -/
def to_numeric_float (c : Col) : Col :=
  ⟨c.name, Dtype.floatDt, (c.cells.map cellToNum).map floatCellOfOpt⟩

/-- A parsed Python datetime (what `pd.to_datetime` produces). -/
structure PyTime where
  year : Nat
  month : Nat
  day : Nat
  hour : Nat
  minute : Nat
  second : Nat
deriving DecidableEq

/-- Read exactly `n` digit characters into an accumulator. -/
def readDigits : Nat → Nat → List Char → Option (Nat × List Char)
  | 0, acc, l => some (acc, l)
  | n + 1, acc, c :: l =>
      if isDigitC c then readDigits n (acc * 10 + digVal c) l else none
  | _ + 1, _, [] => none

/-- Consume one expected character. -/
def expectC (c : Char) : List Char → Option (List Char)
  | x :: r => if x = c then some r else none
  | [] => none

/-- Parse `HH:MM:SS` ending the string. -/
def parseTimePart (l : List Char) : Option (Nat × Nat × Nat) := do
  let (h, r) ← readDigits 2 0 l
  let r ← expectC ':' r
  let (mi, r2) ← readDigits 2 0 r
  let r3 ← expectC ':' r2
  let (s, r4) ← readDigits 2 0 r3
  if r4 = [] ∧ h ≤ 23 ∧ mi ≤ 59 ∧ s ≤ 59 then some (h, mi, s) else none

/-- The optional time-of-day tail of a datetime string: either the string
ends after the date, or a single `' '`/`'T'` separator is followed by
`HH:MM:SS`. -/
def parseDTTail (y mo d : Nat) : List Char → Option PyTime
  | [] => some ⟨y, mo, d, 0, 0, 0⟩
  | c :: r5 =>
      if c = ' ' ∨ c = 'T' then
        (parseTimePart r5).map (fun p => ⟨y, mo, d, p.1, p.2.1, p.2.2⟩)
      else none

/-- Datetime-string acceptance of `pd.to_datetime`, modelled on the ISO forms
`YYYY-MM-DD` and `YYYY-MM-DD[ T]HH:MM:SS` (dateutil's wider acceptance is
abstracted as unparsable). -/
def parseDTChars (l : List Char) : Option PyTime := do
  let (y, r) ← readDigits 4 0 l
  let r1 ← expectC '-' r
  let (mo, r2) ← readDigits 2 0 r1
  let r3 ← expectC '-' r2
  let (d, r4) ← readDigits 2 0 r3
  if 1 ≤ mo ∧ mo ≤ 12 ∧ 1 ≤ d ∧ d ≤ 31 then parseDTTail y mo d r4
  else none

/-- `pd.to_datetime(cell, errors="coerce")`: only strings in the supported
forms parse; numeric cells' epoch-nanosecond interpretation is abstracted to
NaT, as are None/NaN/bools. -/
def cellToDT : Cell → Option PyTime
  | Cell.str s => parseDTChars s.data
  | _ => none

/-- strftime `%Y-%m-%d`. -/
def fmtDateChars (t : PyTime) : List Char :=
  pad4 t.year ++ ('-' :: (pad2 t.month ++ ('-' :: pad2 t.day)))

/-- strftime `%Y-%m-%d %H:%M:%S`. -/
def fmtTSChars (t : PyTime) : List Char :=
  pad4 t.year ++ ('-' :: (pad2 t.month ++ ('-' :: (pad2 t.day ++
    (' ' :: (pad2 t.hour ++ (':' :: (pad2 t.minute ++ (':' :: pad2 t.second)))))))))

/-- One cell under `pd.to_datetime(...).dt.strftime("%Y-%m-%d")`: parsable
cells become the formatted string, NaT slots become float NaN. -/
def dateCastCell (x : Cell) : Cell :=
  match cellToDT x with
  | some t => Cell.str (String.mk (fmtDateChars t))
  | none => Cell.nan

/-- One cell under `pd.to_datetime(...).dt.strftime("%Y-%m-%d %H:%M:%S")`. -/
def tsCastCell (x : Cell) : Cell :=
  match cellToDT x with
  | some t => Cell.str (String.mk (fmtTSChars t))
  | none => Cell.nan

/-- The `date` schema rule applied to a column (result dtype object). -/
def cast_date (c : Col) : Col := ⟨c.name, Dtype.obj, c.cells.map dateCastCell⟩

/-- The `timestamp` schema rule applied to a column (result dtype object). -/
def cast_timestamp (c : Col) : Col := ⟨c.name, Dtype.obj, c.cells.map tsCastCell⟩

/-- The `string` (and unrecognized-type) schema rule: `.astype(str)`. -/
def cast_string (c : Col) : Col :=
  ⟨c.name, Dtype.obj, c.cells.map (fun x => Cell.str (pyStr x))⟩

/-- One `{"Name": ..., "Type": ...}` entry of a table schema. -/
structure ColumnSchema where
  colName : String
  colType : String
deriving DecidableEq

/-- The if/elif dispatch of `cast_types` on the declared type tag. -/
def castColOp (t : String) (c : Col) : Col :=
  if t = ("bigint") then to_numeric_int c
  else if t = ("double") then to_numeric_float c
  else if t = ("int") then to_numeric_int c
  else if t = ("date") then cast_date c
  else if t = ("timestamp") then cast_timestamp c
  else cast_string c

/-- Effect of one schema entry on one column: apply the entry's cast when
the column label matches its declared name, else leave the column alone. -/
def colStep (e : ColumnSchema) (c : Col) : Col :=
  if c.name = e.colName then castColOp e.colType c else c

/-- One loop iteration of `cast_types`: `df[name] = op(df[name])` when the
declared column is present (columns whose name does not match are untouched,
absent declared columns are skipped). -/
def applyEntry (df : DataFrame) (e : ColumnSchema) : DataFrame :=
  ⟨df.nrows, df.cols.map (colStep e)⟩

/-- `cast_types(df, schema)`: fold the schema entries over the frame. -/
def cast_types (df : DataFrame) (schema : List ColumnSchema) : DataFrame :=
  schema.foldl applyEntry df

/-- Cumulative effect of a whole schema on one column (used to state that
casting is column-local). -/
def castColFull (schema : List ColumnSchema) (c : Col) : Col :=
  schema.foldl (fun acc e => colStep e acc) c

/-- Numeric content of an output cell of the numeric casts (NaN ↦ none). -/
def cellValOpt : Cell → Option ℚ
  | Cell.int n => some (n : ℚ)
  | Cell.float q => some q
  | _ => none

/-- Hexadecimal digit characters 0-f (arguments are always < 16 here). -/
def hChar : Nat → Char
  | 0 => '0'
  | 1 => '1'
  | 2 => '2'
  | 3 => '3'
  | 4 => '4'
  | 5 => '5'
  | 6 => '6'
  | 7 => '7'
  | 8 => '8'
  | 9 => '9'
  | 10 => 'a'
  | 11 => 'b'
  | 12 => 'c'
  | 13 => 'd'
  | 14 => 'e'
  | _ => 'f'

/-- How `json.dumps(..., ensure_ascii=False)` escapes one character of a
string: `"` and `\` get a backslash, the common control characters use their
short escapes, other control characters use `\u00XX`, and every character
from space upward (ASCII or not) is emitted literally. -/
def jsonEscapeChar (c : Char) : List Char :=
  if c = '"' then ['\\', '"']
  else if c = '\\' then ['\\', '\\']
  else if c = '\n' then ['\\', 'n']
  else if c = '\r' then ['\\', 'r']
  else if c = '\t' then ['\\', 't']
  else if c = '\x08' then ['\\', 'b']
  else if c = '\x0c' then ['\\', 'f']
  else if c.toNat < 32 then
    ['\\', 'u', '0', '0', hChar (c.toNat / 16), hChar (c.toNat % 16)]
  else [c]

/-- JSON string literal for `s` (quotes included). -/
def jsonStrChars (s : String) : List Char :=
  '"' :: (s.data.map jsonEscapeChar).flatten ++ ['"']

/-- How `json.dumps` renders one cell value.  Note that float NaN is emitted
as the bare literal `NaN` (Python's default `allow_nan=True`), which is not
part of the JSON grammar. -/
def jsonCellChars : Cell → List Char
  | Cell.null => ['n', 'u', 'l', 'l']
  | Cell.bool b => if b then ['t', 'r', 'u', 'e'] else ['f', 'a', 'l', 's', 'e']
  | Cell.int n => renderInt n
  | Cell.float q => renderFloat q
  | Cell.nan => ['N', 'a', 'N']
  | Cell.str s => jsonStrChars s

/-- Cell of column `c` in row `i`. -/
def cellAt (c : Col) (i : Nat) : Cell := c.cells.getD i Cell.null

/-- The `"key": value` members of row `i`, joined with `json.dumps`'s default
`", "` separator (keys in column order, as `row.to_dict()` preserves it;
column labels are assumed distinct, as SQL result sets are). -/
def pairsChars : List Col → Nat → List Char
  | [], _ => []
  | [c], i => jsonStrChars c.name ++ ':' :: ' ' :: jsonCellChars (cellAt c i)
  | c :: cs, i =>
      jsonStrChars c.name ++ ':' :: ' ' :: jsonCellChars (cellAt c i) ++
        ',' :: ' ' :: pairsChars cs i

/-- `json.dumps(row.to_dict(), ensure_ascii=False)` for row `i`. -/
def rowChars (cols : List Col) (i : Nat) : List Char :=
  '{' :: pairsChars cols i ++ ['}']

/-- `export_to_ndjson(df, filename)`: one `json.dumps` line per row, each
terminated by a newline; the file content is returned as a string. -/
def export_to_ndjson (df : DataFrame) : String :=
  String.mk (((List.range df.nrows).map (fun i => rowChars df.cols i ++ ['\n'])).flatten)

/-- A parsed JSON scalar (the serializer's rows are flat, so object and
array members never occur as values). -/
inductive JVal
  | jnull
  | jbool (b : Bool)
  | jnum (q : ℚ)
  | jstr (s : String)
deriving DecidableEq

/-- The 32 ASCII control characters, by code point. -/
def ctlChar : Nat → Char
  | 0 => '\x00'
  | 1 => '\x01'
  | 2 => '\x02'
  | 3 => '\x03'
  | 4 => '\x04'
  | 5 => '\x05'
  | 6 => '\x06'
  | 7 => '\x07'
  | 8 => '\x08'
  | 9 => '\x09'
  | 10 => '\x0a'
  | 11 => '\x0b'
  | 12 => '\x0c'
  | 13 => '\x0d'
  | 14 => '\x0e'
  | 15 => '\x0f'
  | 16 => '\x10'
  | 17 => '\x11'
  | 18 => '\x12'
  | 19 => '\x13'
  | 20 => '\x14'
  | 21 => '\x15'
  | 22 => '\x16'
  | 23 => '\x17'
  | 24 => '\x18'
  | 25 => '\x19'
  | 26 => '\x1a'
  | 27 => '\x1b'
  | 28 => '\x1c'
  | 29 => '\x1d'
  | 30 => '\x1e'
  | _ => '\x1f'

/-- Whether a character is a hexadecimal digit. -/
def isHexC (c : Char) : Bool :=
  isDigitC c || (97 ≤ c.toNat && c.toNat ≤ 102) || (65 ≤ c.toNat && c.toNat ≤ 70)

/-- Value of a hexadecimal digit character. -/
def hexVal (c : Char) : Nat :=
  if isDigitC c then digVal c
  else if 97 ≤ c.toNat then c.toNat - 87
  else c.toNat - 55

/-- Character for a decoded `\uXXXX` code point. -/
def jCharOfNat (v : Nat) : Char :=
  if v < 32 then ctlChar v else Char.ofNat v

/-- Decode a single-character JSON escape. -/
def unescapeC (e : Char) : Option Char :=
  if e = '"' then some '"'
  else if e = '\\' then some '\\'
  else if e = '/' then some '/'
  else if e = 'n' then some '\n'
  else if e = 'r' then some '\r'
  else if e = 't' then some '\t'
  else if e = 'b' then some '\x08'
  else if e = 'f' then some '\x0c'
  else none

/-- Parse the body of a JSON string literal (after the opening quote) up to
and including the closing quote; raw control characters are rejected. -/
def readStrBody : List Char → Option (List Char × List Char)
  | [] => none
  | c :: r =>
      if c = '"' then some ([], r)
      else if c = '\\' then
        match r with
        | 'u' :: h1 :: h2 :: h3 :: h4 :: r2 =>
            if isHexC h1 && isHexC h2 && isHexC h3 && isHexC h4 then
              (readStrBody r2).map (fun p =>
                (jCharOfNat (((hexVal h1 * 16 + hexVal h2) * 16 + hexVal h3) * 16 + hexVal h4)
                  :: p.1, p.2))
            else none
        | e :: r2 =>
            match unescapeC e with
            | some c2 => (readStrBody r2).map (fun p => (c2 :: p.1, p.2))
            | none => none
        | [] => none
      else if c.toNat < 32 then none
      else (readStrBody r).map (fun p => (c :: p.1, p.2))

/-- Parse a JSON number (integer or decimal fraction; this validator covers
the serializer's output range, which never uses exponent notation). -/
def parseJNum (l : List Char) : Option (ℚ × List Char) :=
  let sp : ℚ × List Char := if l.head? = some '-' then (-1, l.tail) else (1, l)
  let p := spanDigits sp.2
  if p.1 = [] then none
  else if p.2.head? = some '.' then
    let f := spanDigits p.2.tail
    if f.1 = [] then none
    else some (sp.1 * ((digitsVal p.1 : ℚ) + (digitsVal f.1 : ℚ) / 10 ^ f.1.length), f.2)
  else some (sp.1 * (digitsVal p.1 : ℚ), p.2)

/-- Parse one JSON scalar value. -/
def parseJVal (l : List Char) : Option (JVal × List Char) :=
  if l.take 4 = ['n', 'u', 'l', 'l'] then some (JVal.jnull, l.drop 4)
  else if l.take 4 = ['t', 'r', 'u', 'e'] then some (JVal.jbool true, l.drop 4)
  else if l.take 5 = ['f', 'a', 'l', 's', 'e'] then some (JVal.jbool false, l.drop 5)
  else if l.head? = some '"' then
    (readStrBody l.tail).map (fun p => (JVal.jstr (String.mk p.1), p.2))
  else (parseJNum l).map (fun p => (JVal.jnum p.1, p.2))

/-- Skip space characters. -/
def skipSp (l : List Char) : List Char := l.dropWhile (fun c => c = ' ')

/-- Parse the `"key": value` members of a JSON object up to and including
the closing brace; `fuel` bounds the recursion by the input length. -/
def parseMembers : Nat → List Char → Option (List (String × JVal) × List Char)
  | 0, _ => none
  | fuel + 1, l => do
      let r0 ← expectC '"' (skipSp l)
      let (k, r1) ← readStrBody r0
      let r2 ← expectC ':' (skipSp r1)
      let (v, r3) ← parseJVal (skipSp r2)
      match skipSp r3 with
      | ',' :: r4 => (parseMembers fuel r4).map (fun p => ((String.mk k, v) :: p.1, p.2))
      | '}' :: r4 => some ([(String.mk k, v)], r4)
      | _ => none

/-- Parse a complete line as a single flat JSON object; `none` means the
line is not well-formed JSON of the serializer's shape. -/
def parseJObj (s : String) : Option (List (String × JVal)) :=
  match skipSp s.data with
  | '{' :: r =>
      match skipSp r with
      | '}' :: r2 => if skipSp r2 = [] then some [] else none
      | r2 =>
          (parseMembers (r2.length + 1) r2).bind
            (fun p => if skipSp p.2 = [] then some p.1 else none)
  | _ => none

/-- Whether a cell serializes to valid JSON: float NaN does not (it prints
as the bare literal `NaN`), and only decimal-fraction rationals (every
float64, in particular everything the pipeline produces) are covered by the
validator's number grammar. -/
def jsonSafeCell : Cell → Bool
  | Cell.nan => false
  | Cell.float q => (decExp q.den).isSome
  | _ => true

/-- The JSON value a (json-safe) cell serializes to. -/
def jvalOfCell : Cell → JVal
  | Cell.null => JVal.jnull
  | Cell.nan => JVal.jnull
  | Cell.bool b => JVal.jbool b
  | Cell.int n => JVal.jnum (n : ℚ)
  | Cell.float q => JVal.jnum q
  | Cell.str s => JVal.jstr s

/-- The `TABLES` dict of the script: table name ↦ S3 folder. -/
def TABLES : List (String × String) :=
  [(("dashboard_data"), ("dashboard_data/")),
   (("dashboard_published_data"), ("dashboard_published_data/"))]

/-- The table names in declaration order. -/
def tableNames : List String := TABLES.map Prod.fst

/-- The `SCHEMAS` dict of the script (each entry's `Name`/`Type` keys are
the `colName`/`colType` fields). -/
def SCHEMAS : List (String × List ColumnSchema) :=
  [(("dashboard_data"),
    [⟨("id"), ("bigint")⟩,
     ⟨("admin_id"), ("bigint")⟩,
     ⟨("date_posted"), ("date")⟩,
     ⟨("engagement"), ("double")⟩,
     ⟨("likes"), ("int")⟩,
     ⟨("post_id"), ("string")⟩,
     ⟨("posturl"), ("string")⟩,
     ⟨("used_hash_tag"), ("string")⟩,
     ⟨("username_tiktok_account"), ("string")⟩,
     ⟨("views"), ("int")⟩,
     ⟨("publication_id"), ("bigint")⟩]),
   (("dashboard_published_data"),
    [⟨("id"), ("bigint")⟩])]

/-- `SCHEMAS.get(table, [])` of the script. -/
def schemaFor (t : String) : List ColumnSchema := (SCHEMAS.lookup t).getD []

/-- strftime directives used by the script; `%Y %m %d %H %M %S` zero-pad,
any other character after `%` is passed through unchanged. -/
def fmtDirective (t : PyTime) (c : Char) : List Char :=
  if c = 'Y' then pad4 t.year
  else if c = 'm' then pad2 t.month
  else if c = 'd' then pad2 t.day
  else if c = 'H' then pad2 t.hour
  else if c = 'M' then pad2 t.minute
  else if c = 'S' then pad2 t.second
  else [c]

/-- A small strftime interpreter covering the script's format strings. -/
def strftimeC : List Char → PyTime → List Char
  | [], _ => []
  | '%' :: c :: rest, t => fmtDirective t c ++ strftimeC rest t
  | c :: rest, t => c :: strftimeC rest t

/-- `datetime.now().strftime("%Y%m%d_%H%M%S")` at wall-clock time `t`. -/
def timestampFmt (t : PyTime) : String :=
  String.mk (strftimeC (("%Y%m%d_%H%M%S").data) t)

/-- The S3 key computed by `subir_a_s3_json`:
`f"{TABLES[table_name]}{table_name}_{timestamp}.json"` (`none` when the
table is not in the catalog, where Python would raise a `KeyError`). -/
def s3KeyFor (table : String) (t : PyTime) : Option String :=
  (TABLES.lookup table).map
    (fun folder => folder ++ table ++ ("_") ++ timestampFmt t ++ (".json"))

/-- Modelled from the spec: the remote-key formula of §4.4,
`destinationPrefix(table) + table + "_" + currentTimestamp + ".json"` with
the timestamp written directly as `YYYYMMDD_HHMMSS`. -/
def specRemoteKey (folder table : String) (t : PyTime) : String :=
  folder ++ table ++ ("_") ++
    String.mk (pad4 t.year ++ pad2 t.month ++ pad2 t.day ++
      '_' :: pad2 t.hour ++ pad2 t.minute ++ pad2 t.second) ++ (".json")

/-- The stages of the per-table pipeline at which the environment may inject
a raised Python exception (fetch failures are carried by `Env.fetch`
itself). -/
inductive Stage
  | sanitizeStage
  | castStage
  | serializeStage
  | publishStage
deriving DecidableEq

/-- The external world of one run: what each table's `SELECT` returns (or
the exception it raises), which stage calls raise, and whether
`s3.upload_file` succeeds (an upload failure is caught inside
`subir_a_s3_json` and is not a raised exception for `main`). -/
structure Env where
  fetch : String → Except String DataFrame
  raiseAt : String → Stage → Bool
  uploadOk : String → Bool

/-- Observable happenings of a run, per table. -/
inductive Event
  | bucketCleared
  | fetchTried (t : String)
  | fetched (t : String)
  | skippedEmpty (t : String)
  | sanitized (t : String)
  | casted (t : String)
  | serialized (t : String)
  | published (t : String) (ok : Bool)
  | removed (t : String)
  | tableFailed (t : String)
deriving DecidableEq

/-- The local working directory: filename ↦ file content. -/
def Files : Type := List (String × String)

/-- Content of a local file. -/
def fsGet : Files → String → Option String
  | [], _ => none
  | p :: fs, n => if p.1 = n then some p.2 else fsGet fs n

/-- Delete a local file, as `os.remove` does. -/
def fsDel : Files → String → Files
  | [], _ => []
  | p :: fs, n => if p.1 = n then fsDel fs n else p :: fsDel fs n

/-- Write (or overwrite) a local file, as `open(filename, "w")` does. -/
def fsSet (fs : Files) (n : String) (content : String) : Files :=
  (n, content) :: fsDel fs n

/-- `df.empty` of pandas: true when either axis has length zero. -/
def dfEmpty (df : DataFrame) : Bool := df.nrows == 0 || df.cols.isEmpty

/-- The body of `main`'s per-table `try`/`except`: fetch, skip if empty,
sanitize, cast, serialize to `f"{table}.json"`, publish, remove the temp
file.  A fetch error or an injected raise at any stage is caught at the
table boundary (`tableFailed`) and processing falls through to the next
table.  A raise at the publish stage happens before `os.remove`, so the
temp file written by the serializer stays behind; a mere upload failure is
caught inside `subir_a_s3_json` and still reaches the remove. -/
def processTable (env : Env) (fs : Files) (t : String) : Files × List Event :=
  match env.fetch t with
  | Except.error _ => (fs, [Event.fetchTried t, Event.tableFailed t])
  | Except.ok df =>
    if dfEmpty df then (fs, [Event.fetchTried t, Event.fetched t, Event.skippedEmpty t])
    else if env.raiseAt t Stage.sanitizeStage then
      (fs, [Event.fetchTried t, Event.fetched t, Event.tableFailed t])
    else
      let df1 := clean_dataframe df
      if env.raiseAt t Stage.castStage then
        (fs, [Event.fetchTried t, Event.fetched t, Event.sanitized t, Event.tableFailed t])
      else
        let df2 := cast_types df1 (schemaFor t)
        if env.raiseAt t Stage.serializeStage then
          (fs, [Event.fetchTried t, Event.fetched t, Event.sanitized t,
                Event.casted t, Event.tableFailed t])
        else
          let fname := t ++ (".json")
          let fs1 := fsSet fs fname (export_to_ndjson df2)
          if env.raiseAt t Stage.publishStage then
            (fs1, [Event.fetchTried t, Event.fetched t, Event.sanitized t,
                   Event.casted t, Event.serialized t, Event.tableFailed t])
          else
            (fsDel fs1 fname,
             [Event.fetchTried t, Event.fetched t, Event.sanitized t, Event.casted t,
              Event.serialized t, Event.published t (env.uploadOk t), Event.removed t])

/-- One iteration of `main`'s `for table, folder in TABLES.items()` loop. -/
def runStep (env : Env) (st : Files × List Event) (tf : String × String) :
    Files × List Event :=
  let r := processTable env st.1 tf.1
  (r.1, st.2 ++ r.2)

/-- `main()`: clear the bucket once, then process every catalog table in
declaration order.  Returns the final local working directory and the run's
event trace. -/
def mainRun (env : Env) : Files × List Event :=
  TABLES.foldl (runStep env) ([], [Event.bucketCleared])

/-- Events a table's processing emits (they do not depend on the incoming
file-system state). -/
def tableEvents (env : Env) (t : String) : List Event := (processTable env [] t).2

/-- A Python heap fragment holding DataFrame objects, for stating that the
transformations mutate their argument object. -/
def Heap : Type := Nat → Option DataFrame

/-- Update the object stored at reference `r`. -/
def heapSet (h : Heap) (r : Nat) (df : DataFrame) : Heap :=
  fun x => if x = r then some df else h x

/-- Calling `clean_dataframe(df)` on the object behind reference `r`: the
columns are reassigned in place (`df[col] = ...`) and the function returns
its argument reference. -/
def clean_dataframe_call (h : Heap) (r : Nat) : Heap × Nat :=
  match h r with
  | some df => (heapSet h r (clean_dataframe df), r)
  | none => (h, r)

/-- Calling `cast_types(df, schema)` on the object behind reference `r`. -/
def cast_types_call (h : Heap) (r : Nat) (schema : List ColumnSchema) : Heap × Nat :=
  match h r with
  | some df => (heapSet h r (cast_types df schema), r)
  | none => (h, r)

/-- The §8 scenario frame: rows `{id:"1", views:"10", date_posted:"2024-01-01"}`
and `{id:"x", views:"20", date_posted:"bad"}` as fetched (string columns). -/
def scenarioDf : DataFrame :=
  ⟨2, [⟨("id"), Dtype.obj, [Cell.str ("1"), Cell.str ("x")]⟩,
       ⟨("views"), Dtype.obj, [Cell.str ("10"), Cell.str ("20")]⟩,
       ⟨("date_posted"), Dtype.obj, [Cell.str ("2024-01-01"), Cell.str ("bad")]⟩]⟩

/-- The §8 scenario schema `{id: bigint, views: int, date_posted: date}`. -/
def scenarioSchema : List ColumnSchema :=
  [⟨("id"), ("bigint")⟩, ⟨("views"), ("int")⟩, ⟨("date_posted"), ("date")⟩]

/-- A small non-empty fetched frame used by concrete run environments (its
single column is not declared in any schema, so casting leaves it alone). -/
def dfSmall : DataFrame := ⟨1, [⟨("c"), Dtype.obj, [Cell.str ("v")]⟩]⟩

/-- A run in which the first table's fetch raises and the second table's
pipeline runs cleanly: the environment for the failure-isolation witness. -/
def envFirstFetchFails : Env :=
  ⟨fun t => if t = ("dashboard_data") then Except.error ("boom") else Except.ok dfSmall,
   fun _ _ => false,
   fun _ => true⟩

/-- A run in which the first table fetches a non-empty frame but its publish
stage raises (e.g. the storage-client constructor), and the second table's
fetch raises: the environment for the cleanup counterexample. -/
def envPublishRaises : Env :=
  ⟨fun t => if t = ("dashboard_data") then Except.ok dfSmall else Except.error ("down"),
   fun t st => if t = ("dashboard_data") ∧ st = Stage.publishStage then true else false,
   fun _ => true⟩

/-! ### Digit-string arithmetic -/

theorem dChar_digit {n : Nat} (h : n < 10) :
    isDigitC (dChar n) = true ∧ digVal (dChar n) = n := by
  interval_cases n <;> exact ⟨by decide, by decide⟩

theorem isDigitC_toNat {c : Char} (h : isDigitC c = true) :
    48 ≤ c.toNat ∧ c.toNat ≤ 57 := by
  simp [isDigitC] at h
  omega

theorem digVal_le_nine {c : Char} (h : isDigitC c = true) : digVal c ≤ 9 := by
  have := isDigitC_toNat h
  simp [digVal]
  omega

theorem foldl_digits (b : List Char) : ∀ acc : Nat,
    b.foldl (fun a c => a * 10 + digVal c) acc = acc * 10 ^ b.length + digitsVal b := by
  induction b with
  | nil => intro acc; simp [digitsVal]
  | cons c cs ih =>
      intro acc
      have hv : digitsVal (c :: cs) = digVal c * 10 ^ cs.length + digitsVal cs := by
        show cs.foldl (fun a x => a * 10 + digVal x) (0 * 10 + digVal c) = _
        rw [ih (0 * 10 + digVal c)]
        ring
      show cs.foldl (fun a x => a * 10 + digVal x) (acc * 10 + digVal c) = _
      rw [ih (acc * 10 + digVal c), hv, List.length_cons]
      ring

theorem digitsVal_append (a b : List Char) :
    digitsVal (a ++ b) = digitsVal a * 10 ^ b.length + digitsVal b := by
  show (a ++ b).foldl (fun x c => x * 10 + digVal c) 0 = _
  rw [List.foldl_append, foldl_digits]
  rfl

theorem digitsVal_cons (c : Char) (cs : List Char) :
    digitsVal (c :: cs) = digVal c * 10 ^ cs.length + digitsVal cs := by
  have h := digitsVal_append [c] cs
  simpa [digitsVal, digVal] using h

theorem natDigitsAux_congr : ∀ (n fuel fuel' : Nat), n < fuel → n < fuel' →
    natDigitsAux fuel n = natDigitsAux fuel' n := by
  intro n
  induction n using Nat.strong_induction_on with
  | _ n ih =>
      intro fuel fuel' hf hf'
      rcases fuel with _ | f
      · omega
      rcases fuel' with _ | f'
      · omega
      rw [natDigitsAux, natDigitsAux]
      by_cases h : n < 10
      · rw [if_pos h, if_pos h]
      · rw [if_neg h, if_neg h,
          ih (n / 10) (Nat.div_lt_self (by omega) (by omega)) f f' (by omega) (by omega)]

theorem natDigits_eq (n : Nat) :
    natDigits n = if n < 10 then [dChar n] else natDigits (n / 10) ++ [dChar (n % 10)] := by
  rw [natDigits, natDigitsAux]
  by_cases h : n < 10
  · rw [if_pos h, if_pos h]
  · rw [if_neg h, if_neg h, natDigits,
      natDigitsAux_congr (n / 10) n (n / 10 + 1) (by omega) (by omega)]

theorem natDigits_all_digit : ∀ n : Nat, ∀ c ∈ natDigits n, isDigitC c = true := by
  intro n
  induction n using Nat.strong_induction_on with
  | _ n ih =>
    rw [natDigits_eq]
    by_cases h : n < 10
    · rw [if_pos h]
      intro c hc
      rw [List.mem_singleton] at hc
      subst hc
      exact (dChar_digit h).1
    · rw [if_neg h]
      intro c hc
      rw [List.mem_append] at hc
      rcases hc with hc | hc
      · exact ih (n / 10) (Nat.div_lt_self (by omega) (by omega)) c hc
      · rw [List.mem_singleton] at hc
        subst hc
        exact (dChar_digit (Nat.mod_lt _ (by omega))).1

theorem natDigits_ne_nil (n : Nat) : natDigits n ≠ [] := by
  rw [natDigits_eq]
  by_cases h : n < 10
  · rw [if_pos h]; simp
  · rw [if_neg h]; simp

theorem digitsVal_singleton (c : Char) : digitsVal [c] = digVal c := by
  simp [digitsVal]

theorem digitsVal_natDigits (n : Nat) : digitsVal (natDigits n) = n := by
  induction n using Nat.strong_induction_on with
  | _ n ih =>
    rw [natDigits_eq]
    by_cases h : n < 10
    · rw [if_pos h, digitsVal_singleton, (dChar_digit h).2]
    · rw [if_neg h, digitsVal_append, digitsVal_singleton,
        ih (n / 10) (Nat.div_lt_self (by omega) (by omega)),
        (dChar_digit (Nat.mod_lt n (by omega))).2]
      simp
      omega

theorem natDigits_len_le : ∀ n k : Nat, n < 10 ^ k → 1 ≤ k → (natDigits n).length ≤ k := by
  intro n
  induction n using Nat.strong_induction_on with
  | _ n ih =>
    intro k hn hk
    rw [natDigits_eq]
    by_cases h : n < 10
    · rw [if_pos h]; simpa using hk
    · rw [if_neg h]
      have hk2 : 2 ≤ k := by
        by_contra hlt
        have : k = 1 := by omega
        subst this
        simp at hn
        omega
      have hdiv : n / 10 < 10 ^ (k - 1) := by
        rw [Nat.div_lt_iff_lt_mul (by omega)]
        calc n < 10 ^ k := hn
          _ = 10 ^ (k - 1) * 10 := by
            rw [← pow_succ]
            congr 1
            omega
      have := ih (n / 10) (Nat.div_lt_self (by omega) (by omega)) (k - 1) hdiv (by omega)
      simp
      omega

theorem padTo_length {k : Nat} {l : List Char} (h : l.length ≤ k) :
    (padTo k l).length = k := by
  simp [padTo]
  omega

theorem padTo_all_digit {k : Nat} {l : List Char} (h : ∀ c ∈ l, isDigitC c = true) :
    ∀ c ∈ padTo k l, isDigitC c = true := by
  intro c hc
  rw [padTo, List.mem_append] at hc
  rcases hc with hc | hc
  · rw [List.eq_of_mem_replicate hc]
    decide
  · exact h c hc

theorem digitsVal_replicate_zero (m : Nat) : digitsVal (List.replicate m '0') = 0 := by
  induction m with
  | zero => rfl
  | succ m ih =>
      rw [List.replicate_succ, digitsVal_cons, ih]
      simp [digVal]

theorem digitsVal_padTo (k : Nat) (l : List Char) :
    digitsVal (padTo k l) = digitsVal l := by
  rw [padTo, digitsVal_append, digitsVal_replicate_zero]
  ring

theorem readDigits_append (ds : List Char) (hd : ∀ c ∈ ds, isDigitC c = true) :
    ∀ (acc : Nat) (rest : List Char),
      readDigits ds.length acc (ds ++ rest) = some (acc * 10 ^ ds.length + digitsVal ds, rest) := by
  induction ds with
  | nil =>
      intro acc rest
      simp [readDigits, digitsVal]
  | cons c cs ih =>
      intro acc rest
      have hc := hd c (by simp)
      have ihs := ih (fun x hx => hd x (by simp [hx]))
      show (if isDigitC c = true then readDigits cs.length (acc * 10 + digVal c) (cs ++ rest)
            else none) = _
      rw [hc, if_pos rfl, ihs, digitsVal_cons]
      simp only [List.length_cons, Option.some.injEq, Prod.mk.injEq]
      exact ⟨by ring, trivial⟩

theorem readDigits_padded {k n : Nat} (hk : 1 ≤ k) (hn : n < 10 ^ k) (rest : List Char) :
    readDigits k 0 (padTo k (natDigits n) ++ rest) = some (n, rest) := by
  have hlen : (padTo k (natDigits n)).length = k :=
    padTo_length (natDigits_len_le n k hn hk)
  have hdig := padTo_all_digit (k := k) (natDigits_all_digit n)
  have h := readDigits_append (padTo k (natDigits n)) hdig 0 rest
  rw [hlen] at h
  rw [h, digitsVal_padTo, digitsVal_natDigits]
  norm_num

theorem readDigits_lt : ∀ (n acc : Nat) (l : List Char) (v : Nat) (r : List Char),
    readDigits n acc l = some (v, r) → v < (acc + 1) * 10 ^ n := by
  intro n
  induction n with
  | zero =>
      intro acc l v r h
      simp [readDigits] at h
      omega
  | succ n ih =>
      intro acc l v r h
      match l with
      | [] => simp [readDigits] at h
      | c :: l' =>
          have hstep : readDigits (n + 1) acc (c :: l') =
              if isDigitC c = true then readDigits n (acc * 10 + digVal c) l' else none := rfl
          rw [hstep] at h
          by_cases hc : isDigitC c = true
          · rw [hc, if_pos rfl] at h
            have hb := ih (acc * 10 + digVal c) l' v r h
            have hd9 := digVal_le_nine hc
            calc v < (acc * 10 + digVal c + 1) * 10 ^ n := hb
              _ ≤ ((acc + 1) * 10) * 10 ^ n := by
                  apply Nat.mul_le_mul_right
                  omega
              _ = (acc + 1) * 10 ^ (n + 1) := by ring
          · rw [if_neg hc] at h
            exact absurd h (by simp)

/-! ### Sanitizer lemmas -/

theorem replCtl_of_whitelist {c : Char} (h : inWhitelist c = true) : replCtl c = c := by
  have hne : ¬(c = '\r' ∨ c = '\n' ∨ c = '\t') := by
    rintro (rfl | rfl | rfl) <;> exact absurd h (by decide)
  rw [replCtl, if_neg hne]

theorem sanitize_idem (s : String) : sanitizeStr (sanitizeStr s) = sanitizeStr s := by
  unfold sanitizeStr
  congr 1
  show ((((s.data.map replCtl).filter inWhitelist).map replCtl).filter inWhitelist) = _
  have hmap : ((s.data.map replCtl).filter inWhitelist).map replCtl =
      (s.data.map replCtl).filter inWhitelist := by
    have h := List.map_congr_left (l := (s.data.map replCtl).filter inWhitelist)
      (f := replCtl) (g := id)
      (fun c hc => replCtl_of_whitelist (List.mem_filter.mp hc).2)
    simpa using h
  rw [hmap]
  exact List.filter_eq_self.mpr (fun c hc => (List.mem_filter.mp hc).2)

theorem pyStr_str (s : String) : pyStr (Cell.str s) = s := rfl

theorem cleanCol_of_not_obj_bool {c : Col} (h1 : c.dtype ≠ Dtype.obj)
    (h2 : c.dtype ≠ Dtype.boolDt) : cleanCol c = c := by
  rw [cleanCol, if_neg]
  rintro (h | h)
  · exact h1 h
  · exact h2 h

theorem cleanCol_idem (c : Col) : cleanCol (cleanCol c) = cleanCol c := by
  by_cases h : c.dtype = Dtype.obj ∨ c.dtype = Dtype.boolDt
  · have hin : cleanCol c =
        ⟨c.name, Dtype.obj, c.cells.map (fun x => Cell.str (sanitizeStr (pyStr x)))⟩ := by
      rw [cleanCol, if_pos h]
    rw [hin, cleanCol, if_pos (Or.inl rfl)]
    simp only [List.map_map]
    congr 1
    apply List.map_congr_left
    intro x _
    simp [Function.comp, pyStr, sanitize_idem]
  · have h1 : c.dtype ≠ Dtype.obj := fun hh => h (Or.inl hh)
    have h2 : c.dtype ≠ Dtype.boolDt := fun hh => h (Or.inr hh)
    rw [cleanCol_of_not_obj_bool h1 h2, cleanCol_of_not_obj_bool h1 h2]

/-- C6: sanitize is idempotent — `clean_dataframe` applied twice equals
`clean_dataframe` applied once, for every dataset. -/
theorem c6_sanitize_idempotent (df : DataFrame) :
    clean_dataframe (clean_dataframe df) = clean_dataframe df := by
  unfold clean_dataframe
  simp only [List.map_map]
  congr 1
  apply List.map_congr_left
  intro c _
  exact cleanCol_idem c

/-! ### Numeric cast lemmas -/

theorem int_cast_of_den_one {q : ℚ} (h : q.den = 1) : (q.num : ℚ) = q :=
  (Rat.den_eq_one_iff q).mp h

theorem cellToNum_floatCellOfOpt (o : Option ℚ) : cellToNum (floatCellOfOpt o) = o := by
  cases o <;> rfl

theorem cellToNum_intCellOfOpt {o : Option ℚ} (h : isIntegralSome o = true) :
    cellToNum (intCellOfOpt o) = o := by
  cases o with
  | none => simp [isIntegralSome] at h
  | some q =>
      simp only [intCellOfOpt, cellToNum, Option.some.injEq]
      exact int_cast_of_den_one (by simpa [isIntegralSome] using h)

theorem cellValOpt_floatCellOfOpt (o : Option ℚ) : cellValOpt (floatCellOfOpt o) = o := by
  cases o <;> rfl

theorem cellValOpt_intCellOfOpt {o : Option ℚ} (h : isIntegralSome o = true) :
    cellValOpt (intCellOfOpt o) = o := by
  cases o with
  | none => simp [isIntegralSome] at h
  | some q =>
      simp only [intCellOfOpt, cellValOpt, Option.some.injEq]
      exact int_cast_of_den_one (by simpa [isIntegralSome] using h)

theorem to_numeric_int_name (c : Col) : (to_numeric_int c).name = c.name := by
  unfold to_numeric_int
  split <;> rfl

theorem to_numeric_float_name (c : Col) : (to_numeric_float c).name = c.name := rfl

theorem to_numeric_int_idem (c : Col) :
    to_numeric_int (to_numeric_int c) = to_numeric_int c := by
  by_cases h : (c.cells.map cellToNum).all isIntegralSome = true
  · have hparsed : (((c.cells.map cellToNum).map intCellOfOpt).map cellToNum) =
        c.cells.map cellToNum := by
      rw [List.map_map]
      have hcg := List.map_congr_left (l := c.cells.map cellToNum)
        (f := cellToNum ∘ intCellOfOpt) (g := id)
        (fun o ho => cellToNum_intCellOfOpt (List.all_eq_true.mp h o ho))
      simpa using hcg
    have hc : to_numeric_int c =
        ⟨c.name, Dtype.intDt, (c.cells.map cellToNum).map intCellOfOpt⟩ := by
      rw [to_numeric_int, if_pos h]
    rw [hc]
    show (if ((((c.cells.map cellToNum).map intCellOfOpt).map cellToNum).all isIntegralSome) = true
          then ({ name := c.name, dtype := Dtype.intDt,
                  cells := (((c.cells.map cellToNum).map intCellOfOpt).map cellToNum).map intCellOfOpt } : Col)
          else { name := c.name, dtype := Dtype.floatDt,
                 cells := (((c.cells.map cellToNum).map intCellOfOpt).map cellToNum).map floatCellOfOpt }) =
        ({ name := c.name, dtype := Dtype.intDt,
           cells := (c.cells.map cellToNum).map intCellOfOpt } : Col)
    rw [hparsed, if_pos h]
  · have hparsed : (((c.cells.map cellToNum).map floatCellOfOpt).map cellToNum) =
        c.cells.map cellToNum := by
      rw [List.map_map]
      have hcg := List.map_congr_left (l := c.cells.map cellToNum)
        (f := cellToNum ∘ floatCellOfOpt) (g := id)
        (fun o _ => cellToNum_floatCellOfOpt o)
      simpa using hcg
    have hc : to_numeric_int c =
        ⟨c.name, Dtype.floatDt, (c.cells.map cellToNum).map floatCellOfOpt⟩ := by
      rw [to_numeric_int, if_neg h]
    rw [hc]
    show (if ((((c.cells.map cellToNum).map floatCellOfOpt).map cellToNum).all isIntegralSome) = true
          then ({ name := c.name, dtype := Dtype.intDt,
                  cells := (((c.cells.map cellToNum).map floatCellOfOpt).map cellToNum).map intCellOfOpt } : Col)
          else { name := c.name, dtype := Dtype.floatDt,
                 cells := (((c.cells.map cellToNum).map floatCellOfOpt).map cellToNum).map floatCellOfOpt }) =
        ({ name := c.name, dtype := Dtype.floatDt,
           cells := (c.cells.map cellToNum).map floatCellOfOpt } : Col)
    rw [hparsed, if_neg h]

theorem to_numeric_float_idem (c : Col) :
    to_numeric_float (to_numeric_float c) = to_numeric_float c := by
  have hparsed : (((c.cells.map cellToNum).map floatCellOfOpt).map cellToNum) =
      c.cells.map cellToNum := by
    rw [List.map_map]
    have hcg := List.map_congr_left (l := c.cells.map cellToNum)
      (f := cellToNum ∘ floatCellOfOpt) (g := id)
      (fun o _ => cellToNum_floatCellOfOpt o)
    simpa using hcg
  show ({ name := c.name, dtype := Dtype.floatDt,
          cells := (((c.cells.map cellToNum).map floatCellOfOpt).map cellToNum).map floatCellOfOpt } : Col) =
    ({ name := c.name, dtype := Dtype.floatDt,
       cells := (c.cells.map cellToNum).map floatCellOfOpt } : Col)
  rw [hparsed]

/-! ### Datetime round-trip lemmas -/

theorem expectC_cons (c : Char) (r : List Char) : expectC c (c :: r) = some r := by
  simp [expectC]

theorem parseTimePart_fmt {h mi s : Nat} (hh : h ≤ 23) (hmi : mi ≤ 59) (hs : s ≤ 59) :
    parseTimePart (pad2 h ++ ':' :: (pad2 mi ++ ':' :: pad2 s)) = some (h, mi, s) := by
  have e1 := readDigits_padded (k := 2) (n := h) (by omega) (by omega)
    (':' :: (pad2 mi ++ ':' :: pad2 s))
  have e2 := readDigits_padded (k := 2) (n := mi) (by omega) (by omega) (':' :: pad2 s)
  have e3 := readDigits_padded (k := 2) (n := s) (by omega) (by omega) ([] : List Char)
  rw [show padTo 2 (natDigits h) = pad2 h from rfl] at e1
  rw [show padTo 2 (natDigits mi) = pad2 mi from rfl] at e2
  rw [show padTo 2 (natDigits s) = pad2 s from rfl, List.append_nil] at e3
  rw [parseTimePart, e1]
  simp only [Option.bind_eq_bind, Option.some_bind, expectC_cons, e2, e3]
  simp [hh, hmi, hs]

/-- Validity of a `PyTime` as the ISO date parser accepts it. -/
def validT (t : PyTime) : Prop :=
  t.year < 10000 ∧ 1 ≤ t.month ∧ t.month ≤ 12 ∧ 1 ≤ t.day ∧ t.day ≤ 31 ∧
    t.hour ≤ 23 ∧ t.minute ≤ 59 ∧ t.second ≤ 59

theorem parseDT_fmtDate {t : PyTime} (h : validT t) :
    parseDTChars (fmtDateChars t) = some ⟨t.year, t.month, t.day, 0, 0, 0⟩ := by
  obtain ⟨hy, hm1, hm2, hd1, hd2, _, _, _⟩ := h
  have e1 := readDigits_padded (k := 4) (n := t.year) (by omega) (by omega)
    ('-' :: (pad2 t.month ++ ('-' :: pad2 t.day)))
  have e2 := readDigits_padded (k := 2) (n := t.month) (by omega) (by omega)
    ('-' :: pad2 t.day)
  have e3 := readDigits_padded (k := 2) (n := t.day) (by omega) (by omega) ([] : List Char)
  rw [show padTo 4 (natDigits t.year) = pad4 t.year from rfl] at e1
  rw [show padTo 2 (natDigits t.month) = pad2 t.month from rfl] at e2
  rw [show padTo 2 (natDigits t.day) = pad2 t.day from rfl, List.append_nil] at e3
  rw [parseDTChars, fmtDateChars, e1]
  simp only [Option.bind_eq_bind, Option.some_bind, expectC_cons, e2, e3]
  rw [if_pos ⟨hm1, hm2, hd1, hd2⟩]
  rfl

theorem parseDT_fmtTS {t : PyTime} (h : validT t) :
    parseDTChars (fmtTSChars t) = some t := by
  obtain ⟨hy, hm1, hm2, hd1, hd2, hh, hmi, hs⟩ := h
  have e1 := readDigits_padded (k := 4) (n := t.year) (by omega) (by omega)
    ('-' :: (pad2 t.month ++ ('-' :: (pad2 t.day ++
      (' ' :: (pad2 t.hour ++ (':' :: (pad2 t.minute ++ (':' :: pad2 t.second)))))))))
  have e2 := readDigits_padded (k := 2) (n := t.month) (by omega) (by omega)
    ('-' :: (pad2 t.day ++ (' ' :: (pad2 t.hour ++ (':' :: (pad2 t.minute ++ (':' :: pad2 t.second)))))))
  have e3 := readDigits_padded (k := 2) (n := t.day) (by omega) (by omega)
    (' ' :: (pad2 t.hour ++ (':' :: (pad2 t.minute ++ (':' :: pad2 t.second)))))
  rw [show padTo 4 (natDigits t.year) = pad4 t.year from rfl] at e1
  rw [show padTo 2 (natDigits t.month) = pad2 t.month from rfl] at e2
  rw [show padTo 2 (natDigits t.day) = pad2 t.day from rfl] at e3
  rw [parseDTChars, fmtTSChars, e1]
  simp only [Option.bind_eq_bind, Option.some_bind, expectC_cons, e2, e3]
  rw [if_pos ⟨hm1, hm2, hd1, hd2⟩, parseDTTail, if_pos (Or.inl rfl),
    parseTimePart_fmt hh hmi hs]
  rfl

theorem parseTimePart_sound {l : List Char} {p : Nat × Nat × Nat}
    (h : parseTimePart l = some p) : p.1 ≤ 23 ∧ p.2.1 ≤ 59 ∧ p.2.2 ≤ 59 := by
  rw [parseTimePart] at h
  rcases h1 : readDigits 2 0 l with _ | ⟨⟨a, r⟩⟩
  · rw [h1] at h; simp at h
  · rw [h1] at h
    simp only [Option.bind_eq_bind, Option.some_bind] at h
    rcases h2 : expectC ':' r with _ | r1
    · rw [h2] at h; simp at h
    · rw [h2] at h
      simp only [Option.some_bind] at h
      rcases h3 : readDigits 2 0 r1 with _ | ⟨⟨b, r2⟩⟩
      · rw [h3] at h; simp at h
      · rw [h3] at h
        simp only [Option.some_bind] at h
        rcases h4 : expectC ':' r2 with _ | r3
        · rw [h4] at h; simp at h
        · rw [h4] at h
          simp only [Option.some_bind] at h
          rcases h5 : readDigits 2 0 r3 with _ | ⟨⟨c, r4⟩⟩
          · rw [h5] at h; simp at h
          · rw [h5] at h
            simp only [Option.some_bind] at h
            split_ifs at h with hcond
            cases h
            exact ⟨hcond.2.1, hcond.2.2.1, hcond.2.2.2⟩

theorem parseDTTail_sound {y mo d : Nat} {r : List Char} {t : PyTime}
    (h : parseDTTail y mo d r = some t)
    (hy : y < 10000) (hm1 : 1 ≤ mo) (hm2 : mo ≤ 12) (hd1 : 1 ≤ d) (hd2 : d ≤ 31) :
    validT t := by
  match r with
  | [] =>
      rw [parseDTTail] at h
      injection h with h
      subst h
      exact ⟨hy, hm1, hm2, hd1, hd2, show (0 : Nat) ≤ 23 by omega,
        show (0 : Nat) ≤ 59 by omega, show (0 : Nat) ≤ 59 by omega⟩
  | c :: r5 =>
      rw [parseDTTail] at h
      split_ifs at h with hsep
      rcases h6 : parseTimePart r5 with _ | ⟨⟨hh, mm, ss⟩⟩
      · rw [h6] at h
        simp at h
      · rw [h6] at h
        rw [show (some (hh, mm, ss)).map
            (fun p => (⟨y, mo, d, p.1, p.2.1, p.2.2⟩ : PyTime)) =
            some ⟨y, mo, d, hh, mm, ss⟩ from rfl] at h
        injection h with h
        subst h
        have hb := parseTimePart_sound h6
        exact ⟨hy, hm1, hm2, hd1, hd2, hb.1, hb.2.1, hb.2.2⟩

theorem parseDT_sound {l : List Char} {t : PyTime}
    (h : parseDTChars l = some t) : validT t := by
  rw [parseDTChars] at h
  rcases h1 : readDigits 4 0 l with _ | ⟨⟨y, r⟩⟩
  · rw [h1] at h; simp at h
  · rw [h1] at h
    simp only [Option.bind_eq_bind, Option.some_bind] at h
    have hy : y < 10000 := by
      have := readDigits_lt 4 0 l y r h1
      simpa using this
    rcases h2 : expectC '-' r with _ | r1
    · rw [h2] at h; simp at h
    · rw [h2] at h
      simp only [Option.some_bind] at h
      rcases h3 : readDigits 2 0 r1 with _ | ⟨⟨mo, r2⟩⟩
      · rw [h3] at h; simp at h
      · rw [h3] at h
        simp only [Option.some_bind] at h
        rcases h4 : expectC '-' r2 with _ | r3
        · rw [h4] at h; simp at h
        · rw [h4] at h
          simp only [Option.some_bind] at h
          rcases h5 : readDigits 2 0 r3 with _ | ⟨⟨d, r4⟩⟩
          · rw [h5] at h; simp at h
          · rw [h5] at h
            simp only [Option.some_bind] at h
            split_ifs at h with hcond
            exact parseDTTail_sound h hy hcond.1 hcond.2.1 hcond.2.2.1 hcond.2.2.2

/-! ### Idempotence of the per-type column casts -/

theorem dateCastCell_idem (x : Cell) : dateCastCell (dateCastCell x) = dateCastCell x := by
  cases hx : cellToDT x with
  | none =>
      simp only [dateCastCell, hx]
      rfl
  | some t =>
      have hv : validT t := by
        cases x <;> simp [cellToDT] at hx
        exact parseDT_sound hx
      have hp : cellToDT (Cell.str (String.mk (fmtDateChars t))) =
          some ⟨t.year, t.month, t.day, 0, 0, 0⟩ := by
        show parseDTChars (fmtDateChars t) = _
        exact parseDT_fmtDate hv
      simp only [dateCastCell, hx, hp]
      rfl

theorem tsCastCell_idem (x : Cell) : tsCastCell (tsCastCell x) = tsCastCell x := by
  cases hx : cellToDT x with
  | none =>
      simp only [tsCastCell, hx]
      rfl
  | some t =>
      have hv : validT t := by
        cases x <;> simp [cellToDT] at hx
        exact parseDT_sound hx
      have hp : cellToDT (Cell.str (String.mk (fmtTSChars t))) = some t := by
        show parseDTChars (fmtTSChars t) = _
        exact parseDT_fmtTS hv
      simp only [tsCastCell, hx, hp]

theorem cast_date_idem (c : Col) : cast_date (cast_date c) = cast_date c := by
  show (⟨c.name, Dtype.obj, (c.cells.map dateCastCell).map dateCastCell⟩ : Col) =
    ⟨c.name, Dtype.obj, c.cells.map dateCastCell⟩
  rw [List.map_map,
    List.map_congr_left (l := c.cells) (f := dateCastCell ∘ dateCastCell)
      (g := dateCastCell) (fun x _ => dateCastCell_idem x)]

theorem cast_timestamp_idem (c : Col) : cast_timestamp (cast_timestamp c) = cast_timestamp c := by
  show (⟨c.name, Dtype.obj, (c.cells.map tsCastCell).map tsCastCell⟩ : Col) =
    ⟨c.name, Dtype.obj, c.cells.map tsCastCell⟩
  rw [List.map_map,
    List.map_congr_left (l := c.cells) (f := tsCastCell ∘ tsCastCell)
      (g := tsCastCell) (fun x _ => tsCastCell_idem x)]

theorem cast_string_idem (c : Col) : cast_string (cast_string c) = cast_string c := by
  show (⟨c.name, Dtype.obj,
      (c.cells.map (fun x => Cell.str (pyStr x))).map (fun x => Cell.str (pyStr x))⟩ : Col) =
    ⟨c.name, Dtype.obj, c.cells.map (fun x => Cell.str (pyStr x))⟩
  rw [List.map_map,
    List.map_congr_left
      (l := c.cells)
      (f := (fun x => Cell.str (pyStr x)) ∘ (fun x => Cell.str (pyStr x)))
      (g := fun x => Cell.str (pyStr x)) (fun x _ => rfl)]

theorem castColOp_name (t : String) (c : Col) : (castColOp t c).name = c.name := by
  rw [castColOp]
  split_ifs <;> first | exact to_numeric_int_name c | rfl

theorem castColOp_idem (t : String) (c : Col) :
    castColOp t (castColOp t c) = castColOp t c := by
  simp only [castColOp]
  split_ifs
  · exact to_numeric_int_idem c
  · exact to_numeric_float_idem c
  · exact to_numeric_int_idem c
  · exact cast_date_idem c
  · exact cast_timestamp_idem c
  · exact cast_string_idem c

/-! ### `cast_types` structure: column-locality and idempotence -/

theorem colStep_name (e : ColumnSchema) (c : Col) : (colStep e c).name = c.name := by
  rw [colStep]
  split_ifs with h
  · exact castColOp_name e.colType c
  · rfl

theorem colStep_hit {e : ColumnSchema} {c : Col} (h : c.name = e.colName) :
    colStep e c = castColOp e.colType c := by
  rw [colStep, if_pos h]

theorem colStep_miss {e : ColumnSchema} {c : Col} (h : ¬c.name = e.colName) :
    colStep e c = c := by
  rw [colStep, if_neg h]

theorem colStep_idem (e : ColumnSchema) (c : Col) : colStep e (colStep e c) = colStep e c := by
  by_cases h : c.name = e.colName
  · rw [colStep_hit h, colStep_hit ((castColOp_name e.colType c).trans h), castColOp_idem]
  · rw [colStep_miss h, colStep_miss h]

theorem colStep_comm {e f : ColumnSchema} (hne : e.colName ≠ f.colName) (c : Col) :
    colStep f (colStep e c) = colStep e (colStep f c) := by
  by_cases h1 : c.name = e.colName <;> by_cases h2 : c.name = f.colName
  · exact absurd (h1.symm.trans h2) hne
  · have hfe : ¬(castColOp e.colType c).name = f.colName := by
      intro hh
      exact hne (h1.symm.trans ((castColOp_name e.colType c).symm.trans hh))
    rw [colStep_hit h1, colStep_miss h2, colStep_miss hfe, colStep_hit h1]
  · have hef : ¬(castColOp f.colType c).name = e.colName := by
      intro hh
      exact hne (((castColOp_name f.colType c).symm.trans hh).symm.trans h2)
    rw [colStep_miss h1, colStep_hit h2, colStep_miss hef]
  · rw [colStep_miss h1, colStep_miss h2, colStep_miss h1]

theorem df_ext {a b : DataFrame} (h1 : a.nrows = b.nrows) (h2 : a.cols = b.cols) : a = b := by
  cases a
  cases b
  simp_all

theorem cast_types_cons (df : DataFrame) (e : ColumnSchema) (rest : List ColumnSchema) :
    cast_types df (e :: rest) = cast_types (applyEntry df e) rest := rfl

theorem cast_types_nrows (df : DataFrame) (s : List ColumnSchema) :
    (cast_types df s).nrows = df.nrows := by
  induction s generalizing df with
  | nil => rfl
  | cons e rest ih => rw [cast_types_cons, ih]; rfl

theorem cast_types_cols (df : DataFrame) (s : List ColumnSchema) :
    (cast_types df s).cols = df.cols.map (castColFull s) := by
  induction s generalizing df with
  | nil =>
      show df.cols = df.cols.map (castColFull [])
      exact (List.map_id df.cols).symm
  | cons e rest ih =>
      rw [cast_types_cons, ih]
      show (df.cols.map (colStep e)).map (castColFull rest) = _
      rw [List.map_map]
      rfl

theorem applyEntry_idem (df : DataFrame) (e : ColumnSchema) :
    applyEntry (applyEntry df e) e = applyEntry df e := by
  show (⟨df.nrows, (df.cols.map (colStep e)).map (colStep e)⟩ : DataFrame) = _
  rw [List.map_map,
    List.map_congr_left (l := df.cols) (f := colStep e ∘ colStep e) (g := colStep e)
      (fun c _ => colStep_idem e c)]
  rfl

theorem castColFull_colStep_comm (e : ColumnSchema) (rest : List ColumnSchema)
    (he : ∀ f ∈ rest, e.colName ≠ f.colName) (c : Col) :
    castColFull rest (colStep e c) = colStep e (castColFull rest c) := by
  induction rest generalizing c with
  | nil => rfl
  | cons f fs ih =>
      show castColFull fs (colStep f (colStep e c)) = colStep e (castColFull fs (colStep f c))
      rw [colStep_comm (he f (by simp)) c]
      exact ih (fun g hg => he g (by simp [hg])) (colStep f c)

theorem applyEntry_cast_types_comm (df : DataFrame) (e : ColumnSchema)
    (rest : List ColumnSchema) (he : ∀ f ∈ rest, e.colName ≠ f.colName) :
    cast_types (applyEntry df e) rest = applyEntry (cast_types df rest) e := by
  apply df_ext
  · rw [cast_types_nrows]
    show df.nrows = (cast_types df rest).nrows
    rw [cast_types_nrows]
  · rw [cast_types_cols]
    show (df.cols.map (colStep e)).map (castColFull rest) =
      (cast_types df rest).cols.map (colStep e)
    rw [cast_types_cols, List.map_map, List.map_map]
    exact List.map_congr_left (fun c _ => castColFull_colStep_comm e rest he c)

theorem cast_types_idem (df : DataFrame) (s : List ColumnSchema)
    (h : (s.map ColumnSchema.colName).Nodup) :
    cast_types (cast_types df s) s = cast_types df s := by
  induction s generalizing df with
  | nil => rfl
  | cons e rest ih =>
      rw [List.map_cons, List.nodup_cons] at h
      obtain ⟨hnotin, hrest⟩ := h
      have he : ∀ f ∈ rest, e.colName ≠ f.colName := by
        intro f hf heq
        apply hnotin
        rw [heq]
        exact List.mem_map_of_mem _ hf
      rw [cast_types_cons df, cast_types_cons,
        ← applyEntry_cast_types_comm (applyEntry df e) e rest he, applyEntry_idem]
      exact ih (applyEntry df e) hrest

/-- C7: the type cast is idempotent — for every dataset `d` and every table
schema `s` (schemas declare each column name at most once, as both catalog
schemas do), `cast_types(cast_types(d, s), s) = cast_types(d, s)`: reapplying
the cast to already-cast data changes no column. -/
theorem c7_cast_idempotent (df : DataFrame) (s : List ColumnSchema)
    (h : (s.map ColumnSchema.colName).Nodup) :
    cast_types (cast_types df s) s = cast_types df s :=
  cast_types_idem df s h

/-- Witness for C7 at the catalog schema of `dashboard_data` and the §8
scenario frame. -/
theorem c7_cast_idempotent_witness :
    ((schemaFor ("dashboard_data")).map ColumnSchema.colName).Nodup ∧
    cast_types (cast_types scenarioDf (schemaFor ("dashboard_data")))
        (schemaFor ("dashboard_data")) =
      cast_types scenarioDf (schemaFor ("dashboard_data")) :=
  ⟨by decide, c7_cast_idempotent scenarioDf _ (by decide)⟩

/-- C3 counterexample: the claim that a null cell is still null after
sanitization fails on the code — `clean_dataframe` stringifies every value
of an object-dtyped column with `.astype(str)`, so a `None` cell in a
textual column becomes the string `"None"`. -/
theorem c3_counterexample_null_stringified :
    cellAt ((clean_dataframe ⟨1, [⟨("v"), Dtype.obj, [Cell.null]⟩]⟩).cols.getD 0 dummyCol) 0 =
      Cell.str ("None") ∧
    Cell.str ("None") ≠ Cell.null :=
  ⟨by decide, by decide⟩

/-- C3 (amended): sanitize rewrites exactly the object(textual)- and
boolean-dtyped columns; every column of any other dtype (numeric, date)
passes through completely unchanged, nulls included.  Inside an object
column every value — nulls and numbers too — is first stringified via
Python `str()` and then character-filtered. -/
theorem c3_amended_sanitizer_scope (df : DataFrame) :
    (clean_dataframe df).cols = df.cols.map cleanCol ∧
    (∀ c : Col, c.dtype ≠ Dtype.obj → c.dtype ≠ Dtype.boolDt → cleanCol c = c) ∧
    (∀ (name : String) (cells : List Cell),
      cleanCol ⟨name, Dtype.obj, cells⟩ =
        ⟨name, Dtype.obj, cells.map (fun x => Cell.str (sanitizeStr (pyStr x)))⟩) := by
  refine ⟨rfl, fun c h1 h2 => cleanCol_of_not_obj_bool h1 h2, fun name cells => ?_⟩
  rw [cleanCol, if_pos (Or.inl rfl)]

/-- Witness for C3 (amended): a float column with a NaN passes through
sanitization untouched, while a null in an object column is stringified. -/
theorem c3_amended_sanitizer_scope_witness :
    cleanCol ⟨("n"), Dtype.floatDt, [Cell.float 1, Cell.nan]⟩ =
      ⟨("n"), Dtype.floatDt, [Cell.float 1, Cell.nan]⟩ ∧
    cleanCol ⟨("v"), Dtype.obj, [Cell.null]⟩ =
      ⟨("v"), Dtype.obj, [Cell.str (sanitizeStr (pyStr Cell.null))]⟩ :=
  ⟨(c3_amended_sanitizer_scope ⟨0, []⟩).2.1 _ (by decide) (by decide),
   (c3_amended_sanitizer_scope ⟨0, []⟩).2.2 (("v")) [Cell.null]⟩

/-- C4 counterexample: a parse failure in one cell does not leave the other
cells of the column with the values they would otherwise have had.  Under
schema `a: bigint`, the column `["1", "x"]` casts to `[1.0, NaN]` (float
dtype — `downcast="integer"` cannot apply), while the counterfactual column
`["1", "2"]` casts to `[1, 2]` (integer dtype): the first cell is the float
`1.0` in one run and the integer `1` in the other. -/
theorem c4_counterexample_downcast_coupling :
    cellAt ((cast_types ⟨2, [⟨("a"), Dtype.obj, [Cell.str ("1"), Cell.str ("x")]⟩]⟩
        [⟨("a"), ("bigint")⟩]).cols.getD 0 dummyCol) 0 = Cell.float 1 ∧
    cellAt ((cast_types ⟨2, [⟨("a"), Dtype.obj, [Cell.str ("1"), Cell.str ("2")]⟩]⟩
        [⟨("a"), ("bigint")⟩]).cols.getD 0 dummyCol) 0 = Cell.int 1 ∧
    (Cell.float 1 : Cell) ≠ Cell.int 1 :=
  ⟨by with_unfolding_all decide, by with_unfolding_all decide, by decide⟩

/-- C4 (amended): casting is column-local across columns — each output
column is a function of the matching input column and the schema alone —
and inside a numeric column each cell's numeric value (with NaN as `none`)
is exactly the parse of the corresponding input cell, so a parse failure
nulls only its own cell; what a failure can change about sibling cells is
only their int-versus-float representation (the dtype downcast), never
their numeric value. -/
theorem c4_amended_column_locality (df : DataFrame) (s : List ColumnSchema) (c : Col) :
    (cast_types df s).cols = df.cols.map (castColFull s) ∧
    (to_numeric_int c).cells.map cellValOpt = c.cells.map cellToNum ∧
    (to_numeric_float c).cells.map cellValOpt = c.cells.map cellToNum ∧
    (to_numeric_int c).name = c.name := by
  refine ⟨cast_types_cols df s, ?_, ?_, to_numeric_int_name c⟩
  · by_cases h : (c.cells.map cellToNum).all isIntegralSome = true
    · have hc : to_numeric_int c =
          ⟨c.name, Dtype.intDt, (c.cells.map cellToNum).map intCellOfOpt⟩ := by
        rw [to_numeric_int, if_pos h]
      rw [hc]
      show ((c.cells.map cellToNum).map intCellOfOpt).map cellValOpt = c.cells.map cellToNum
      rw [List.map_map]
      have hcg := List.map_congr_left (l := c.cells.map cellToNum)
        (f := cellValOpt ∘ intCellOfOpt) (g := id)
        (fun o ho => cellValOpt_intCellOfOpt (List.all_eq_true.mp h o ho))
      simpa using hcg
    · have hc : to_numeric_int c =
          ⟨c.name, Dtype.floatDt, (c.cells.map cellToNum).map floatCellOfOpt⟩ := by
        rw [to_numeric_int, if_neg h]
      rw [hc]
      show ((c.cells.map cellToNum).map floatCellOfOpt).map cellValOpt = c.cells.map cellToNum
      rw [List.map_map]
      have hcg := List.map_congr_left (l := c.cells.map cellToNum)
        (f := cellValOpt ∘ floatCellOfOpt) (g := id)
        (fun o _ => cellValOpt_floatCellOfOpt o)
      simpa using hcg
  · show ((c.cells.map cellToNum).map floatCellOfOpt).map cellValOpt = c.cells.map cellToNum
    rw [List.map_map]
    have hcg := List.map_congr_left (l := c.cells.map cellToNum)
      (f := cellValOpt ∘ floatCellOfOpt) (g := id)
      (fun o _ => cellValOpt_floatCellOfOpt o)
    simpa using hcg

set_option maxRecDepth 100000

set_option maxHeartbeats 4000000 in
theorem scenario_output_eq :
    export_to_ndjson (cast_types scenarioDf scenarioSchema) =
      ("\x7b\"id\": 1.0, \"views\": 10, \"date_posted\": \"2024-01-01\"\x7d\n" ++
       "\x7b\"id\": NaN, \"views\": 20, \"date_posted\": NaN\x7d\n") := by
  with_unfolding_all decide

/-- C2 counterexample: the §8 scenario does not produce the two claimed
lines.  The unparsable `"x"` forces the whole `id` column to float dtype,
so row 1 serializes `id` as `1.0` (not `1`); failed casts serialize as the
bare literal `NaN` (not `null`); and `json.dumps`'s default separators put
a space after each colon and comma. -/
theorem c2_counterexample_scenario_output :
    export_to_ndjson (cast_types scenarioDf scenarioSchema) ≠
      ("\x7b\"id\":1,\"views\":10,\"date_posted\":\"2024-01-01\"\x7d\n" ++
       "\x7b\"id\":null,\"views\":20,\"date_posted\":null\x7d\n") := by
  rw [scenario_output_eq]
  decide

/-- C2 (amended): on the §8 scenario schema and rows, cast-then-serialize
produces exactly the two lines
`{"id": 1.0, "views": 10, "date_posted": "2024-01-01"}` and
`{"id": NaN, "views": 20, "date_posted": NaN}`. -/
theorem c2_amended_scenario_output :
    export_to_ndjson (cast_types scenarioDf scenarioSchema) =
      ("\x7b\"id\": 1.0, \"views\": 10, \"date_posted\": \"2024-01-01\"\x7d\n" ++
       "\x7b\"id\": NaN, \"views\": 20, \"date_posted\": NaN\x7d\n") :=
  scenario_output_eq

/-! ### Publish key (C9) -/

theorem timestampFmt_eq (t : PyTime) :
    timestampFmt t = String.mk (pad4 t.year ++ pad2 t.month ++ pad2 t.day ++
      '_' :: pad2 t.hour ++ pad2 t.minute ++ pad2 t.second) := by
  rw [timestampFmt]
  congr 1
  show pad4 t.year ++ (pad2 t.month ++ (pad2 t.day ++ ('_' :: (pad2 t.hour ++
      (pad2 t.minute ++ (pad2 t.second ++ ([] : List Char))))))) = _
  simp

/-- C9: for every cataloged table and wall-clock instant, the S3 key that
`subir_a_s3_json` computes is exactly the spec's formula
`destinationPrefix(table) + table + "_" + t + ".json"` with `t` the current
time written as `YYYYMMDD_HHMMSS`. -/
theorem c9_publish_key_formula (table folder : String) (t : PyTime)
    (h : TABLES.lookup table = some folder) :
    s3KeyFor table t = some (specRemoteKey folder table t) := by
  rw [s3KeyFor, h]
  show some (folder ++ table ++ ("_") ++ timestampFmt t ++ (".json")) = _
  rw [timestampFmt_eq, specRemoteKey]

/-- Witness for C9 at `dashboard_data` and 2024-01-02 03:04:05. -/
theorem c9_publish_key_formula_witness :
    TABLES.lookup ("dashboard_data") = some ("dashboard_data/") ∧
    s3KeyFor ("dashboard_data") ⟨2024, 1, 2, 3, 4, 5⟩ =
      some (specRemoteKey ("dashboard_data/") ("dashboard_data") ⟨2024, 1, 2, 3, 4, 5⟩) :=
  ⟨by decide,
   c9_publish_key_formula (("dashboard_data")) (("dashboard_data/"))
     ⟨2024, 1, 2, 3, 4, 5⟩ (by decide)⟩

/-! ### In-place mutation (C10) -/

/-- C10: `clean_dataframe` and `cast_types` mutate their argument object.
Called on the DataFrame behind reference `r`, each returns `r` itself and
overwrites the heap at `r` with the transformed frame (leaving every other
reference untouched), so the caller's pre-transformation dataset is gone
after the call. -/
theorem c10_inplace_mutation (h : Heap) (r : Nat) (df : DataFrame)
    (schema : List ColumnSchema) (hr : h r = some df) :
    ((clean_dataframe_call h r).2 = r ∧
     (clean_dataframe_call h r).1 r = some (clean_dataframe df) ∧
     ∀ x, x ≠ r → (clean_dataframe_call h r).1 x = h x) ∧
    ((cast_types_call h r schema).2 = r ∧
     (cast_types_call h r schema).1 r = some (cast_types df schema) ∧
     ∀ x, x ≠ r → (cast_types_call h r schema).1 x = h x) := by
  have hc : clean_dataframe_call h r = (heapSet h r (clean_dataframe df), r) := by
    rw [clean_dataframe_call, hr]
  have hk : cast_types_call h r schema = (heapSet h r (cast_types df schema), r) := by
    rw [cast_types_call, hr]
  rw [hc, hk]
  refine ⟨⟨rfl, ?_, fun x hx => ?_⟩, rfl, ?_, fun x hx => ?_⟩
  · simp [heapSet]
  · simp [heapSet, hx]
  · simp [heapSet]
  · simp [heapSet, hx]

/-- Witness for C10: a two-reference heap whose reference 0 holds the
scenario frame. -/
theorem c10_inplace_mutation_witness :
    ((clean_dataframe_call (fun x => if x = 0 then some scenarioDf else none) 0).2 = 0 ∧
     (clean_dataframe_call (fun x => if x = 0 then some scenarioDf else none) 0).1 0 =
       some (clean_dataframe scenarioDf)) ∧
    ((cast_types_call (fun x => if x = 0 then some scenarioDf else none) 0 scenarioSchema).2 = 0 ∧
     (cast_types_call (fun x => if x = 0 then some scenarioDf else none) 0 scenarioSchema).1 0 =
       some (cast_types scenarioDf scenarioSchema)) := by
  have h := c10_inplace_mutation (fun x => if x = 0 then some scenarioDf else none)
    0 scenarioDf scenarioSchema rfl
  exact ⟨⟨h.1.1, h.1.2.1⟩, ⟨h.2.1, h.2.2.1⟩⟩

/-! ### Orchestrator lemmas (C1, C8) -/

theorem mainRun_trace (env : Env) :
    (mainRun env).2 =
      ([Event.bucketCleared] ++ (processTable env [] (("dashboard_data"))).2) ++
        (processTable env (processTable env [] (("dashboard_data"))).1
          (("dashboard_published_data"))).2 := rfl

theorem mainRun_files (env : Env) :
    (mainRun env).1 =
      (processTable env (processTable env [] (("dashboard_data"))).1
        (("dashboard_published_data"))).1 := rfl

theorem processTable_fetchTried (env : Env) (fs : Files) (t : String) :
    Event.fetchTried t ∈ (processTable env fs t).2 := by
  cases hfetch : env.fetch t with
  | error e => simp [processTable, hfetch]
  | ok df =>
      simp only [processTable, hfetch]
      by_cases h0 : dfEmpty df = true
      · rw [if_pos h0]
        simp
      · rw [if_neg h0]
        split_ifs <;> simp

theorem processTable_success (env : Env) (t : String) (df : DataFrame) (fs : Files)
    (hf : env.fetch t = Except.ok df) (hne : dfEmpty df = false)
    (hraise : ∀ st, env.raiseAt t st = false) :
    (processTable env fs t).2 =
      [Event.fetchTried t, Event.fetched t, Event.sanitized t, Event.casted t,
       Event.serialized t, Event.published t (env.uploadOk t), Event.removed t] := by
  simp [processTable, hf, hne, hraise]

/-- C1: failure isolation across tables — for every run environment and
every pair of catalog tables `A` before `B`, even when a stage of `A`'s
pipeline raises (its fetch errors or any later stage throws), `B`'s fetch is
still attempted, and if `B`'s fetch returns a non-empty frame and none of
its own stages raise, `B` is sanitized, cast, serialized, published and its
temp file removed, all within the same run. -/
theorem c1_failure_isolation (env : Env) (i j : Nat) (hij : i < j)
    (hj : j < tableNames.length)
    (hA : (∃ e, env.fetch (tableNames.getD i ("")) = Except.error e) ∨
          (∃ st, env.raiseAt (tableNames.getD i ("")) st = true)) :
    Event.fetchTried (tableNames.getD j ("")) ∈ (mainRun env).2 ∧
    (∀ df, env.fetch (tableNames.getD j ("")) = Except.ok df → dfEmpty df = false →
      (∀ st, env.raiseAt (tableNames.getD j ("")) st = false) →
      Event.sanitized (tableNames.getD j ("")) ∈ (mainRun env).2 ∧
      Event.casted (tableNames.getD j ("")) ∈ (mainRun env).2 ∧
      Event.serialized (tableNames.getD j ("")) ∈ (mainRun env).2 ∧
      Event.published (tableNames.getD j (""))
        (env.uploadOk (tableNames.getD j (""))) ∈ (mainRun env).2 ∧
      Event.removed (tableNames.getD j ("")) ∈ (mainRun env).2) := by
  have hlen : tableNames.length = 2 := rfl
  have hj1 : j = 1 := by omega
  subst hj1
  have hi0 : i = 0 := by omega
  subst hi0
  show Event.fetchTried (("dashboard_published_data")) ∈ (mainRun env).2 ∧ _
  constructor
  · rw [mainRun_trace]
    exact List.mem_append.mpr (Or.inr (processTable_fetchTried env _ _))
  · intro df hf hne hraise
    have hev := processTable_success env (("dashboard_published_data")) df
      (processTable env [] (("dashboard_data"))).1 hf hne hraise
    rw [mainRun_trace, hev]
    refine ⟨?_, ?_, ?_, ?_, ?_⟩ <;>
      exact List.mem_append.mpr (Or.inr (by simp [tableNames, TABLES]))

/-- Witness for C1: a run whose first table's fetch raises while the second
table fetches a one-row frame; the second table is still processed end to
end. -/
theorem c1_failure_isolation_witness :
    (0 : Nat) < 1 ∧ (1 : Nat) < tableNames.length ∧
    envFirstFetchFails.fetch (tableNames.getD 0 ("")) = Except.error ("boom") ∧
    Event.fetchTried (tableNames.getD 1 ("")) ∈ (mainRun envFirstFetchFails).2 ∧
    Event.sanitized (tableNames.getD 1 ("")) ∈ (mainRun envFirstFetchFails).2 ∧
    Event.casted (tableNames.getD 1 ("")) ∈ (mainRun envFirstFetchFails).2 ∧
    Event.serialized (tableNames.getD 1 ("")) ∈ (mainRun envFirstFetchFails).2 ∧
    Event.published (tableNames.getD 1 ("")) true ∈ (mainRun envFirstFetchFails).2 ∧
    Event.removed (tableNames.getD 1 ("")) ∈ (mainRun envFirstFetchFails).2 := by
  have h := c1_failure_isolation envFirstFetchFails 0 1 (by omega) (by decide)
    (Or.inl ⟨("boom"), rfl⟩)
  have h2 := h.2 dfSmall rfl rfl (fun st => rfl)
  exact ⟨by omega, by decide, rfl, h.1, h2.1, h2.2.1, h2.2.2.1, h2.2.2.2.1, h2.2.2.2.2⟩

theorem fsGet_fsDel (fs : Files) (n : String) : fsGet (fsDel fs n) n = none := by
  induction fs with
  | nil => rfl
  | cons p fs ih =>
      rw [fsDel]
      split_ifs with h
      · exact ih
      · rw [fsGet, if_neg h]
        exact ih

theorem fsGet_fsDel_none {fs : Files} {m : String} (n : String)
    (h0 : fsGet fs m = none) : fsGet (fsDel fs n) m = none := by
  induction fs with
  | nil => rfl
  | cons p fs ih =>
      rw [fsGet] at h0
      split_ifs at h0 with hp
      rw [fsDel]
      split_ifs with hn
      · exact ih h0
      · rw [fsGet, if_neg hp]
        exact ih h0

theorem fsGet_fsSet_none {fs : Files} {m : String} (n c : String)
    (hne : m ≠ n) (h0 : fsGet fs m = none) : fsGet (fsSet fs n c) m = none := by
  rw [fsSet, fsGet, if_neg (fun hh => hne hh.symm)]
  exact fsGet_fsDel_none n h0

theorem processTable_file_gone (env : Env) (fs : Files) (t : String)
    (hp : env.raiseAt t Stage.publishStage = false)
    (h0 : fsGet fs (t ++ (".json")) = none) :
    fsGet (processTable env fs t).1 (t ++ (".json")) = none := by
  cases hfetch : env.fetch t with
  | error e =>
      simp only [processTable, hfetch]
      exact h0
  | ok df =>
      simp only [processTable, hfetch]
      split_ifs with h1 h2 h3 h4 h5
      · exact h0
      · exact h0
      · exact h0
      · exact h0
      · exact absurd h5 (by rw [hp]; simp)
      · exact fsGet_fsDel _ _

theorem processTable_file_other (env : Env) (fs : Files) (t : String) (s : String)
    (hne : s ≠ t ++ (".json")) (h0 : fsGet fs s = none) :
    fsGet (processTable env fs t).1 s = none := by
  cases hfetch : env.fetch t with
  | error e =>
      simp only [processTable, hfetch]
      exact h0
  | ok df =>
      simp only [processTable, hfetch]
      split_ifs with h1 h2 h3 h4 h5
      · exact h0
      · exact h0
      · exact h0
      · exact h0
      · exact fsGet_fsSet_none _ _ hne h0
      · exact fsGet_fsDel_none _ (fsGet_fsSet_none _ _ hne h0)

/-- C8 counterexample: the cleanup guarantee fails when an exception escapes
the publish stage.  In `envPublishRaises` the first table is fetched
non-empty, sanitized, cast and serialized, but `subir_a_s3_json` raises
(e.g. in the storage-client constructor, which sits outside its internal
`try`); `main`'s per-table handler catches it after `os.remove` was skipped,
so `dashboard_data.json` is still on disk when the run ends. -/
theorem c8_counterexample_file_left_behind :
    Event.serialized (("dashboard_data")) ∈ (mainRun envPublishRaises).2 ∧
    (fsGet (mainRun envPublishRaises).1 (("dashboard_data.json"))).isSome = true := by
  constructor
  · decide
  · decide

/-- C8 (amended): the temp file is deleted whenever the publish call
returns — including the upload-failure path, since `subir_a_s3_json`
catches upload errors internally — so for every run in which a table's
publish stage does not raise, no `<table>.json` file remains at the end of
the run.  (When an exception escapes the publish stage itself, cleanup is
skipped; see the counterexample.) -/
theorem c8_amended_cleanup (env : Env) (t : String) (ht : t ∈ tableNames)
    (hp : env.raiseAt t Stage.publishStage = false) :
    fsGet (mainRun env).1 (t ++ (".json")) = none := by
  rw [mainRun_files]
  have ht2 : t = ("dashboard_data") ∨ t = ("dashboard_published_data") := by
    simpa [tableNames, TABLES] using ht
  rcases ht2 with rfl | rfl
  · apply processTable_file_other
    · decide
    · exact processTable_file_gone env [] _ hp rfl
  · apply processTable_file_gone env _ _ hp
    exact processTable_file_other env [] _ _ (by decide) rfl

/-! ### Serializer line structure (C5) -/

theorem digit_ne_nl {c : Char} (h : isDigitC c = true) : c ≠ '\n' := by
  rintro rfl
  exact absurd h (by decide)

theorem count_nl_zero {l : List Char} (h : ∀ c ∈ l, c ≠ '\n') : l.count '\n' = 0 :=
  List.count_eq_zero.mpr (fun hmem => h _ hmem rfl)

theorem hChar_ne_nl (n : Nat) : hChar n ≠ '\n' := by
  rw [hChar.eq_def]
  split <;> decide

theorem renderInt_no_nl (n : ℤ) : ∀ c ∈ renderInt n, c ≠ '\n' := by
  intro c hc
  rw [renderInt] at hc
  split_ifs at hc
  · rcases List.mem_cons.mp hc with rfl | hc2
    · decide
    · exact digit_ne_nl (natDigits_all_digit _ _ hc2)
  · exact digit_ne_nl (natDigits_all_digit _ _ hc)

theorem padTo_no_nl {k : Nat} {l : List Char} (h : ∀ c ∈ l, c ≠ '\n') :
    ∀ c ∈ padTo k l, c ≠ '\n' := by
  intro c hc
  rw [padTo, List.mem_append] at hc
  rcases hc with hc | hc
  · rw [List.eq_of_mem_replicate hc]
    decide
  · exact h c hc

theorem renderFloat_no_nl (q : ℚ) : ∀ c ∈ renderFloat q, c ≠ '\n' := by
  intro c hc
  rw [renderFloat] at hc
  split_ifs at hc with h1 hsgn
  · rw [List.mem_append] at hc
    rcases hc with hc | hc
    · exact renderInt_no_nl _ c hc
    · simp at hc
      rcases hc with rfl | rfl <;> decide
  · rcases hd : decExp q.den with _ | k <;> simp only [hd] at hc
    · simp only [List.mem_append, List.mem_cons, List.not_mem_nil, or_false,
        or_assoc] at hc
      rcases hc with hc | rfl | hc
      · exact renderInt_no_nl _ c hc
      · decide
      · exact digit_ne_nl (natDigits_all_digit _ _ hc)
    · have hdigs : ∀ x ∈ padTo (k + 1)
          (natDigits (q.num * ((10 ^ k : ℕ) / q.den : ℕ)).natAbs), x ≠ '\n' :=
        padTo_no_nl (fun x hx => digit_ne_nl (natDigits_all_digit _ _ hx))
      simp only [List.mem_append, List.mem_cons, List.not_mem_nil, or_false,
        or_assoc] at hc
      rcases hc with rfl | hc | rfl | hc
      · decide
      · exact hdigs c (List.mem_of_mem_take hc)
      · decide
      · exact hdigs c (List.mem_of_mem_drop hc)
  · rcases hd : decExp q.den with _ | k <;> simp only [hd] at hc
    · simp only [List.mem_append, List.mem_cons, List.not_mem_nil, or_false,
        or_assoc] at hc
      rcases hc with hc | rfl | hc
      · exact renderInt_no_nl _ c hc
      · decide
      · exact digit_ne_nl (natDigits_all_digit _ _ hc)
    · have hdigs : ∀ x ∈ padTo (k + 1)
          (natDigits (q.num * ((10 ^ k : ℕ) / q.den : ℕ)).natAbs), x ≠ '\n' :=
        padTo_no_nl (fun x hx => digit_ne_nl (natDigits_all_digit _ _ hx))
      simp only [List.nil_append, List.mem_append, List.mem_cons, List.not_mem_nil,
        or_false, or_assoc] at hc
      rcases hc with hc | rfl | hc
      · exact hdigs c (List.mem_of_mem_take hc)
      · decide
      · exact hdigs c (List.mem_of_mem_drop hc)

theorem jsonEscapeChar_no_nl (x : Char) : ∀ c ∈ jsonEscapeChar x, c ≠ '\n' := by
  intro c hc
  rw [jsonEscapeChar] at hc
  split_ifs at hc with h1 h2 h3 h4 h5 h6 h7 h8
  all_goals simp only [List.mem_cons, List.not_mem_nil, or_false] at hc
  · rcases hc with rfl | rfl <;> decide
  · rcases hc with rfl | rfl <;> decide
  · rcases hc with rfl | rfl <;> decide
  · rcases hc with rfl | rfl <;> decide
  · rcases hc with rfl | rfl <;> decide
  · rcases hc with rfl | rfl <;> decide
  · rcases hc with rfl | rfl <;> decide
  · rcases hc with rfl | rfl | rfl | rfl | rfl | rfl
    · decide
    · decide
    · decide
    · decide
    · exact hChar_ne_nl _
    · exact hChar_ne_nl _
  · subst hc
    intro hceq
    subst hceq
    exact h8 (by decide)

theorem jsonStrChars_no_nl (s : String) : ∀ c ∈ jsonStrChars s, c ≠ '\n' := by
  intro c hc
  rw [jsonStrChars] at hc
  simp only [List.mem_cons, List.mem_append, List.append_eq, List.mem_flatten,
    List.mem_map, List.not_mem_nil, or_false, or_assoc] at hc
  rcases hc with rfl | ⟨l, ⟨x, _, rfl⟩, hcl⟩ | rfl
  · decide
  · exact jsonEscapeChar_no_nl x c hcl
  · decide

theorem jsonCellChars_no_nl (x : Cell) : ∀ c ∈ jsonCellChars x, c ≠ '\n' := by
  intro c hc
  cases x with
  | null =>
      simp [jsonCellChars] at hc
      rcases hc with rfl | rfl | rfl <;> decide
  | nan =>
      simp [jsonCellChars] at hc
      rcases hc with rfl | rfl | rfl <;> decide
  | bool b =>
      cases b <;> simp [jsonCellChars] at hc
      · rcases hc with rfl | rfl | rfl | rfl | rfl <;> decide
      · rcases hc with rfl | rfl | rfl | rfl <;> decide
  | int n => exact renderInt_no_nl n c hc
  | float q => exact renderFloat_no_nl q c hc
  | str s => exact jsonStrChars_no_nl s c hc

theorem pairsChars_no_nl : ∀ (cols : List Col) (i : Nat), ∀ c ∈ pairsChars cols i, c ≠ '\n' := by
  intro cols
  induction cols with
  | nil =>
      intro i c hc
      simp [pairsChars] at hc
  | cons c0 cs ih =>
      intro i c hc
      cases cs with
      | nil =>
          rw [pairsChars] at hc
          simp only [List.mem_append, List.append_eq, List.mem_cons,
            List.not_mem_nil, or_false, or_assoc] at hc
          rcases hc with hc | rfl | rfl | hc
          · exact jsonStrChars_no_nl _ c hc
          · decide
          · decide
          · exact jsonCellChars_no_nl _ c hc
      | cons c1 cs1 =>
          have hpe : pairsChars (c0 :: c1 :: cs1) i =
              jsonStrChars c0.name ++ ':' :: ' ' :: jsonCellChars (cellAt c0 i) ++
                ',' :: ' ' :: pairsChars (c1 :: cs1) i := rfl
          rw [hpe] at hc
          simp only [List.mem_append, List.append_eq, List.mem_cons,
            List.not_mem_nil, or_false, or_assoc] at hc
          rcases hc with hc | rfl | rfl | hc | rfl | rfl | hc
          · exact jsonStrChars_no_nl _ c hc
          · decide
          · decide
          · exact jsonCellChars_no_nl _ c hc
          · decide
          · decide
          · exact ih i c hc

theorem rowChars_no_nl (cols : List Col) (i : Nat) : ∀ c ∈ rowChars cols i, c ≠ '\n' := by
  intro c hc
  rw [rowChars] at hc
  simp only [List.mem_cons, List.mem_append, List.append_eq, List.not_mem_nil,
    or_false, or_assoc] at hc
  rcases hc with rfl | hc | rfl
  · decide
  · exact pairsChars_no_nl cols i c hc
  · decide

theorem flatten_rows_count (cols : List Col) : ∀ rows : List Nat,
    ((rows.map (fun i => rowChars cols i ++ ['\n'])).flatten).count '\n' = rows.length := by
  intro rows
  induction rows with
  | nil => rfl
  | cons i rs ih =>
      rw [List.map_cons, List.flatten_cons, List.count_append, List.count_append,
        count_nl_zero (rowChars_no_nl cols i), ih]
      simp
      omega

theorem export_count (df : DataFrame) :
    (export_to_ndjson df).data.count '\n' = df.nrows := by
  rw [export_to_ndjson]
  show (((List.range df.nrows).map (fun i => rowChars df.cols i ++ ['\n'])).flatten).count '\n' = _
  rw [flatten_rows_count, List.length_range]

theorem export_empty {df : DataFrame} (h : df.nrows = 0) : export_to_ndjson df = ("") := by
  rw [export_to_ndjson, h]
  rfl

/-! ### Round-trip of the serializer through the JSON validator (C5) -/

theorem spanDigits_exact {d : List Char} (rest : List Char)
    (hd : ∀ c ∈ d, isDigitC c = true)
    (hr : ∀ c, rest.head? = some c → isDigitC c = false) :
    spanDigits (d ++ rest) = (d, rest) := by
  induction d with
  | nil =>
      rw [List.nil_append, spanDigits]
      cases rest with
      | nil => rfl
      | cons c r =>
          rw [List.takeWhile_cons, List.dropWhile_cons, hr c rfl]
          simp
  | cons c d ih =>
      have hc := hd c (by simp)
      have ihs := ih (fun x hx => hd x (by simp [hx]))
      rw [spanDigits] at ihs ⊢
      rw [List.cons_append, List.takeWhile_cons, List.dropWhile_cons, hc]
      simp only [if_true]
      rw [Prod.mk.injEq] at ihs ⊢
      exact ⟨by rw [ihs.1], ihs.2⟩

theorem digit_ne {c : Char} (h : isDigitC c = true) :
    c ≠ '-' ∧ c ≠ '.' ∧ c ≠ 'n' ∧ c ≠ 't' ∧ c ≠ 'f' ∧ c ≠ '"' := by
  refine ⟨?_, ?_, ?_, ?_, ?_, ?_⟩ <;> (rintro rfl; exact absurd h (by decide))

theorem numBd_not_dot {rest : List Char} (hr : numBd rest) :
    ¬(rest.head? = some '.') := by
  cases rest with
  | nil => simp
  | cons c r =>
      simp only [List.head?_cons, Option.some.injEq]
      exact (hr c rfl).2

theorem parseJNum_digits {d : List Char} (rest : List Char)
    (hd : ∀ c ∈ d, isDigitC c = true) (hne : d ≠ []) (hr : numBd rest) :
    parseJNum (d ++ rest) = some ((digitsVal d : ℚ), rest) := by
  obtain ⟨c0, d', rfl⟩ : ∃ c0 d', d = c0 :: d' := by
    cases d with
    | nil => exact absurd rfl hne
    | cons a b => exact ⟨a, b, rfl⟩
  have hc0 := hd c0 (by simp)
  have hne1 : ¬((c0 :: (d' ++ rest)).head? = some '-') := by
    simp only [List.head?_cons, Option.some.injEq]
    exact (digit_ne hc0).1
  have hspan := spanDigits_exact (d := c0 :: d') rest hd (fun c h => (hr c h).1)
  rw [List.cons_append] at hspan
  rw [List.cons_append, parseJNum]
  simp only [if_neg hne1, hspan, if_neg (List.cons_ne_nil c0 d'),
    if_neg (numBd_not_dot hr), one_mul]

theorem parseJNum_renderInt (n : ℤ) (rest : List Char) (hr : numBd rest) :
    parseJNum (renderInt n ++ rest) = some ((n : ℚ), rest) := by
  rw [renderInt]
  split_ifs with hn
  · rw [List.cons_append, parseJNum]
    have hspan := spanDigits_exact (d := natDigits n.natAbs) rest
      (natDigits_all_digit _) (fun c h => (hr c h).1)
    simp only [List.head?_cons, eq_self_iff_true, if_true, List.tail_cons, hspan,
      if_neg (natDigits_ne_nil n.natAbs), if_neg (numBd_not_dot hr),
      digitsVal_natDigits]
    have hv : (-1 : ℚ) * ((n.natAbs : ℕ) : ℚ) = (n : ℚ) := by
      have h2 : ((n.natAbs : ℕ) : ℤ) = -n := by
        rw [← Int.natAbs_neg]
        exact Int.natAbs_of_nonneg (neg_nonneg.mpr (le_of_lt hn))
      have h3 : ((n.natAbs : ℕ) : ℚ) = -(n : ℚ) := by
        rw [← Int.cast_natCast (R := ℚ), h2, Int.cast_neg]
      rw [h3]; ring
    rw [hv]
  · rw [parseJNum_digits rest (natDigits_all_digit _) (natDigits_ne_nil _) hr,
      digitsVal_natDigits]
    have h2 : ((n.natAbs : ℕ) : ℤ) = n := Int.natAbs_of_nonneg (le_of_not_lt hn)
    have hv : ((n.natAbs : ℕ) : ℚ) = (n : ℚ) := by
      rw [← Int.cast_natCast (R := ℚ), h2]
    rw [hv]

theorem padTo_length_max (k : Nat) (l : List Char) :
    (padTo k l).length = max k l.length := by
  rw [padTo, List.length_append, List.length_replicate]
  omega

theorem parseJNum_frac {a b : List Char} (rest : List Char)
    (ha : ∀ c ∈ a, isDigitC c = true) (hb : ∀ c ∈ b, isDigitC c = true)
    (hane : a ≠ []) (hbne : b ≠ []) (hr : numBd rest) :
    parseJNum (a ++ '.' :: (b ++ rest)) =
      some ((digitsVal a : ℚ) + (digitsVal b : ℚ) / 10 ^ b.length, rest) := by
  obtain ⟨c0, a', rfl⟩ : ∃ c0 a', a = c0 :: a' := by
    cases a with
    | nil => exact absurd rfl hane
    | cons x y => exact ⟨x, y, rfl⟩
  have hc0 := ha c0 (by simp)
  have hne1 : ¬((c0 :: (a' ++ '.' :: (b ++ rest))).head? = some '-') := by
    simp only [List.head?_cons, Option.some.injEq]
    exact (digit_ne hc0).1
  have hne1' : ¬((some c0 : Option Char) = some '-') := fun h =>
    (digit_ne hc0).1 (Option.some.inj h)
  have hr1 : ∀ c, ('.' :: (b ++ rest)).head? = some c → isDigitC c = false := by
    intro c h
    simp only [List.head?_cons, Option.some.injEq] at h
    subst h
    decide
  have hspan1 := spanDigits_exact (d := c0 :: a') ('.' :: (b ++ rest)) ha hr1
  rw [List.cons_append] at hspan1
  have hspan2 := spanDigits_exact (d := b) rest hb (fun c h => (hr c h).1)
  rw [List.cons_append, parseJNum]
  simp only [if_neg hne1, if_neg hne1', hspan1, if_neg (List.cons_ne_nil c0 a'),
    List.head?_cons, eq_self_iff_true, if_true, List.tail_cons, hspan2,
    if_neg hbne, one_mul]

theorem parseJNum_neg_frac {a b : List Char} (rest : List Char)
    (ha : ∀ c ∈ a, isDigitC c = true) (hb : ∀ c ∈ b, isDigitC c = true)
    (hane : a ≠ []) (hbne : b ≠ []) (hr : numBd rest) :
    parseJNum ('-' :: (a ++ '.' :: (b ++ rest))) =
      some (-((digitsVal a : ℚ) + (digitsVal b : ℚ) / 10 ^ b.length), rest) := by
  have hr1 : ∀ c, ('.' :: (b ++ rest)).head? = some c → isDigitC c = false := by
    intro c h
    simp only [List.head?_cons, Option.some.injEq] at h
    subst h
    decide
  have hspan1 := spanDigits_exact (d := a) ('.' :: (b ++ rest)) ha hr1
  have hspan2 := spanDigits_exact (d := b) rest hb (fun c h => (hr c h).1)
  rw [parseJNum]
  simp only [List.head?_cons, eq_self_iff_true, if_true, List.tail_cons, hspan1,
    if_neg hane, hspan2, if_neg hbne, neg_one_mul]

theorem parseJNum_renderFloat (q : ℚ) (rest : List Char) (hr : numBd rest)
    (hs : (decExp q.den).isSome = true) :
    parseJNum (renderFloat q ++ rest) = some (q, rest) := by
  rw [renderFloat]
  by_cases hden : q.den = 1
  · rw [if_pos hden]
    have hq : ((q.num : ℤ) : ℚ) = q := by
      have h := Rat.num_div_den q
      rw [hden] at h
      simpa using h
    rw [List.append_assoc]
    show parseJNum (renderInt q.num ++ '.' :: (['0'] ++ rest)) = some (q, rest)
    rw [renderInt]
    split_ifs with hn
    · rw [List.cons_append,
        parseJNum_neg_frac rest (natDigits_all_digit _) (by decide)
          (natDigits_ne_nil _) (by decide) hr]
      have hval : -((digitsVal (natDigits q.num.natAbs) : ℚ) +
          (digitsVal ['0'] : ℚ) / 10 ^ (['0'] : List Char).length) = q := by
        rw [digitsVal_natDigits, show digitsVal ['0'] = 0 from rfl, Nat.cast_zero,
          zero_div, add_zero]
        have h2 : ((q.num.natAbs : ℕ) : ℤ) = -q.num := by
          rw [← Int.natAbs_neg]
          exact Int.natAbs_of_nonneg (by omega)
        rw [← Int.cast_natCast (R := ℚ), h2, Int.cast_neg, neg_neg, hq]
      rw [hval]
    · rw [parseJNum_frac rest (natDigits_all_digit _) (by decide)
        (natDigits_ne_nil _) (by decide) hr]
      have hval : ((digitsVal (natDigits q.num.natAbs) : ℚ) +
          (digitsVal ['0'] : ℚ) / 10 ^ (['0'] : List Char).length) = q := by
        rw [digitsVal_natDigits, show digitsVal ['0'] = 0 from rfl, Nat.cast_zero,
          zero_div, add_zero]
        have h2 : ((q.num.natAbs : ℕ) : ℤ) = q.num :=
          Int.natAbs_of_nonneg (le_of_not_lt hn)
        rw [← Int.cast_natCast (R := ℚ), h2, hq]
      rw [hval]
  · rw [if_neg hden]
    obtain ⟨k, hk⟩ := Option.isSome_iff_exists.mp hs
    have hdvd : q.den ∣ 10 ^ k := by
      rw [decExp] at hk
      have h := List.find?_some hk
      exact of_decide_eq_true h
    have hk1 : 1 ≤ k := by
      rcases Nat.eq_zero_or_pos k with h0 | h1
      · subst h0
        rw [pow_zero] at hdvd
        exact absurd (Nat.dvd_one.mp hdvd) hden
      · exact h1
    simp only [hk]
    simp only [List.append_assoc, List.cons_append, List.nil_append]
    set m := 10 ^ k / q.den with hm_def
    set N : ℤ := q.num * (m : ℤ) with hN_def
    set digs := padTo (k + 1) (natDigits N.natAbs) with hdigs_def
    set t := digs.length - k with ht_def
    have hm : m * q.den = 10 ^ k := by
      rw [hm_def]
      exact Nat.div_mul_cancel hdvd
    have hm0 : 0 < m := by
      rcases Nat.eq_zero_or_pos m with hz | hp
      · rw [hz, zero_mul] at hm
        have h10 : (10 : ℕ) ^ k ≠ 0 := by positivity
        exact absurd hm.symm h10
      · exact hp
    have hdigs_all : ∀ c ∈ digs, isDigitC c = true := by
      rw [hdigs_def]
      exact padTo_all_digit (natDigits_all_digit _)
    have hlen : k + 1 ≤ digs.length := by
      rw [hdigs_def, padTo_length_max]
      omega
    have ht1 : 1 ≤ t := by omega
    have htake_len : (digs.take t).length = t := by
      rw [List.length_take]
      omega
    have hdrop_len : (digs.drop t).length = k := by
      rw [List.length_drop]
      omega
    have htake_ne : digs.take t ≠ [] := by
      intro h
      have h2 := congrArg List.length h
      rw [htake_len] at h2
      simp at h2
      omega
    have hdrop_ne : digs.drop t ≠ [] := by
      intro h
      have h2 := congrArg List.length h
      rw [hdrop_len] at h2
      simp at h2
      omega
    have htake_all : ∀ c ∈ digs.take t, isDigitC c = true :=
      fun c hc => hdigs_all c (List.take_subset _ _ hc)
    have hdrop_all : ∀ c ∈ digs.drop t, isDigitC c = true :=
      fun c hc => hdigs_all c (List.drop_subset _ _ hc)
    have hsplit : digitsVal (digs.take t) * 10 ^ k + digitsVal (digs.drop t) = N.natAbs := by
      have h1 : digitsVal digs = N.natAbs := by
        rw [hdigs_def, digitsVal_padTo, digitsVal_natDigits]
      calc digitsVal (digs.take t) * 10 ^ k + digitsVal (digs.drop t)
          = digitsVal (digs.take t) * 10 ^ (digs.drop t).length + digitsVal (digs.drop t) := by
            rw [hdrop_len]
        _ = digitsVal (digs.take t ++ digs.drop t) := (digitsVal_append _ _).symm
        _ = digitsVal digs := by rw [List.take_append_drop]
        _ = N.natAbs := h1
    have h10ne : ((10 : ℚ)) ^ k ≠ 0 := by positivity
    have hval : (digitsVal (digs.take t) : ℚ) +
        (digitsVal (digs.drop t) : ℚ) / 10 ^ (digs.drop t).length =
        ((N.natAbs : ℕ) : ℚ) / 10 ^ k := by
      rw [hdrop_len, eq_div_iff h10ne, add_mul, div_mul_cancel₀ _ h10ne]
      exact_mod_cast hsplit
    have hfin : ((N : ℤ) : ℚ) / 10 ^ k = q := by
      have hm0' : ((m : ℕ) : ℚ) ≠ 0 := by
        exact_mod_cast Nat.pos_iff_ne_zero.mp hm0
      have h10 : ((10 : ℚ)) ^ k = (m : ℚ) * (q.den : ℚ) := by
        have h := congrArg (fun n : ℕ => ((n : ℕ) : ℚ)) hm
        push_cast at h
        exact h.symm
      rw [hN_def]
      push_cast
      rw [h10, mul_comm (q.num : ℚ) (m : ℚ), mul_div_mul_left _ _ hm0']
      exact Rat.num_div_den q
    by_cases hn : q.num < 0
    · rw [if_pos hn]
      simp only [List.cons_append, List.nil_append]
      rw [parseJNum_neg_frac rest htake_all hdrop_all htake_ne hdrop_ne hr, hval]
      have hNneg : N < 0 := by
        rw [hN_def]
        exact mul_neg_of_neg_of_pos hn (by exact_mod_cast hm0)
      have h2 : ((N.natAbs : ℕ) : ℤ) = -N := by
        rw [← Int.natAbs_neg]
        exact Int.natAbs_of_nonneg (by omega)
      have h3 : ((N.natAbs : ℕ) : ℚ) = -((N : ℤ) : ℚ) := by
        rw [← Int.cast_natCast (R := ℚ), h2, Int.cast_neg]
      rw [h3, neg_div, neg_neg, hfin]
    · rw [if_neg hn, List.nil_append,
        parseJNum_frac rest htake_all hdrop_all htake_ne hdrop_ne hr, hval]
      have h2 : ((N.natAbs : ℕ) : ℤ) = N := by
        refine Int.natAbs_of_nonneg ?_
        rw [hN_def]
        exact mul_nonneg (le_of_not_lt hn) (by positivity)
      have h3 : ((N.natAbs : ℕ) : ℚ) = ((N : ℤ) : ℚ) := by
        rw [← Int.cast_natCast (R := ℚ), h2]
      rw [h3, hfin]

theorem char_eq_of_toNat {a b : Char} (h : a.toNat = b.toNat) : a = b := by
  rw [← Char.ofNat_toNat a, ← Char.ofNat_toNat b, h]

theorem hChar_hex : ∀ n, n < 16 → isHexC (hChar n) = true := by decide

theorem hexVal_hChar : ∀ n, n < 16 → hexVal (hChar n) = n := by decide

theorem ctlChar_toNat : ∀ v, v < 32 → (ctlChar v).toNat = v := by decide

theorem jCharOfNat_toNat {c : Char} (h : c.toNat < 32) : jCharOfNat c.toNat = c := by
  rw [jCharOfNat, if_pos h]
  exact char_eq_of_toNat (ctlChar_toNat c.toNat h)

theorem readStrBody_cons {c : Char} (r : List Char) (h1 : ¬c = '"') (h2 : ¬c = '\\')
    (h3 : ¬c.toNat < 32) :
    readStrBody (c :: r) = (readStrBody r).map (fun p => (c :: p.1, p.2)) := by
  conv_lhs => rw [readStrBody.eq_def]
  simp only [if_neg h1, if_neg h2, if_neg h3]

theorem readStrBody_u (x y : Char) (tail : List Char)
    (hx : isHexC x = true) (hy : isHexC y = true) :
    readStrBody ('\\' :: 'u' :: '0' :: '0' :: x :: y :: tail) =
      (readStrBody tail).map (fun p =>
        (jCharOfNat (((hexVal '0' * 16 + hexVal '0') * 16 + hexVal x) * 16 + hexVal y)
          :: p.1, p.2)) := by
  have h0 : isHexC '0' = true := by decide
  conv_lhs => rw [readStrBody.eq_def]
  simp [h0, hx, hy]

theorem readStrBody_escape (c : Char) (tail : List Char) :
    readStrBody (jsonEscapeChar c ++ tail) =
      (readStrBody tail).map (fun p => (c :: p.1, p.2)) := by
  by_cases h1 : c = '"'
  · subst h1
    show readStrBody ('\\' :: '"' :: tail) = _
    conv_lhs => rw [readStrBody.eq_def]
    simp [unescapeC]
  by_cases h2 : c = '\\'
  · subst h2
    show readStrBody ('\\' :: '\\' :: tail) = _
    conv_lhs => rw [readStrBody.eq_def]
    simp [unescapeC]
  by_cases h3 : c = '\n'
  · subst h3
    show readStrBody ('\\' :: 'n' :: tail) = _
    conv_lhs => rw [readStrBody.eq_def]
    simp [unescapeC]
  by_cases h4 : c = '\r'
  · subst h4
    show readStrBody ('\\' :: 'r' :: tail) = _
    conv_lhs => rw [readStrBody.eq_def]
    simp [unescapeC]
  by_cases h5 : c = '\t'
  · subst h5
    show readStrBody ('\\' :: 't' :: tail) = _
    conv_lhs => rw [readStrBody.eq_def]
    simp [unescapeC]
  by_cases h6 : c = '\x08'
  · subst h6
    show readStrBody ('\\' :: 'b' :: tail) = _
    conv_lhs => rw [readStrBody.eq_def]
    simp [unescapeC]
  by_cases h7 : c = '\x0c'
  · subst h7
    show readStrBody ('\\' :: 'f' :: tail) = _
    conv_lhs => rw [readStrBody.eq_def]
    simp [unescapeC]
  by_cases h8 : c.toNat < 32
  · rw [jsonEscapeChar, if_neg h1, if_neg h2, if_neg h3, if_neg h4, if_neg h5,
      if_neg h6, if_neg h7, if_pos h8]
    show readStrBody ('\\' :: 'u' :: '0' :: '0' :: hChar (c.toNat / 16) ::
        hChar (c.toNat % 16) :: tail) = _
    rw [readStrBody_u _ _ tail (hChar_hex _ (by omega)) (hChar_hex _ (by omega)),
      hexVal_hChar _ (by omega), hexVal_hChar _ (by omega),
      show hexVal '0' = 0 from by decide,
      show ((0 * 16 + 0) * 16 + c.toNat / 16) * 16 + c.toNat % 16 = c.toNat from by omega,
      jCharOfNat_toNat h8]
  · rw [jsonEscapeChar, if_neg h1, if_neg h2, if_neg h3, if_neg h4, if_neg h5,
      if_neg h6, if_neg h7, if_neg h8]
    show readStrBody (c :: tail) = _
    exact readStrBody_cons tail h1 h2 h8

theorem readStrBody_flatten (s : List Char) (rest : List Char) :
    readStrBody ((s.map jsonEscapeChar).flatten ++ ('"' :: rest)) = some (s, rest) := by
  induction s with
  | nil =>
      show readStrBody ('"' :: rest) = some ([], rest)
      conv_lhs => rw [readStrBody.eq_def]
      simp
  | cons c cs ih =>
      rw [List.map_cons, List.flatten_cons, List.append_assoc, readStrBody_escape, ih]
      rfl

theorem renderInt_head (n : ℤ) :
    ∃ c t, renderInt n = c :: t ∧ (c = '-' ∨ isDigitC c = true) := by
  rw [renderInt]
  split_ifs with hn
  · exact ⟨'-', _, rfl, Or.inl rfl⟩
  · rcases hne : natDigits n.natAbs with _ | ⟨c, cs⟩
    · exact absurd hne (natDigits_ne_nil _)
    · exact ⟨c, cs, rfl,
        Or.inr (natDigits_all_digit _ c (by rw [hne]; exact List.mem_cons_self _ _))⟩

theorem renderFloat_head (q : ℚ) :
    ∃ c t, renderFloat q = c :: t ∧ (c = '-' ∨ isDigitC c = true) := by
  rw [renderFloat]
  by_cases hden : q.den = 1
  · rw [if_pos hden]
    obtain ⟨c, t, hct, hc⟩ := renderInt_head q.num
    rw [hct, List.cons_append]
    exact ⟨c, t ++ ['.', '0'], rfl, hc⟩
  · rw [if_neg hden]
    rcases hk : decExp q.den with _ | k
    · simp only [hk]
      obtain ⟨c, t, hct, hc⟩ := renderInt_head q.num
      rw [hct, List.cons_append]
      exact ⟨c, _, rfl, hc⟩
    · simp only [hk]
      by_cases hn : q.num < 0
      · rw [if_pos hn]
        exact ⟨'-', _, rfl, Or.inl rfl⟩
      · rw [if_neg hn, List.nil_append]
        set digs := padTo (k + 1)
          (natDigits (q.num * ((10 ^ k / q.den : ℕ) : ℤ)).natAbs) with hdigs
        have hlen : k + 1 ≤ digs.length := by
          rw [hdigs, padTo_length_max]
          omega
        rcases ht : digs.take (digs.length - k) with _ | ⟨c, cs⟩
        · exfalso
          have h2 := congrArg List.length ht
          rw [List.length_take] at h2
          simp at h2
          omega
        · refine ⟨c, cs ++ '.' :: List.drop (digs.length - k) digs, ?_, Or.inr ?_⟩
          · rw [List.cons_append]
          have hcmem : c ∈ digs :=
            List.take_subset _ _ (ht ▸ List.mem_cons_self c cs)
          rw [hdigs] at hcmem
          exact padTo_all_digit (natDigits_all_digit _) c hcmem

theorem parseJVal_to_num {l : List Char} (c0 : Char) (h0 : l.head? = some c0)
    (hd : c0 = '-' ∨ isDigitC c0 = true) :
    parseJVal l = (parseJNum l).map (fun p => (JVal.jnum p.1, p.2)) := by
  obtain ⟨t, rfl⟩ : ∃ t, l = c0 :: t := by
    cases l with
    | nil => exact absurd h0 (by simp)
    | cons a b =>
        simp only [List.head?_cons, Option.some.injEq] at h0
        exact ⟨b, by rw [h0]⟩
  have hne : c0 ≠ 'n' ∧ c0 ≠ 't' ∧ c0 ≠ 'f' ∧ c0 ≠ '"' := by
    rcases hd with h | h
    · subst h
      exact ⟨by decide, by decide, by decide, by decide⟩
    · exact ⟨(digit_ne h).2.2.1, (digit_ne h).2.2.2.1, (digit_ne h).2.2.2.2.1,
        (digit_ne h).2.2.2.2.2⟩
  have hA : ¬((c0 :: t).take 4 = ['n', 'u', 'l', 'l']) := by
    intro h
    rw [List.take_succ_cons] at h
    exact hne.1 (List.cons.inj h).1
  have hB : ¬((c0 :: t).take 4 = ['t', 'r', 'u', 'e']) := by
    intro h
    rw [List.take_succ_cons] at h
    exact hne.2.1 (List.cons.inj h).1
  have hC : ¬((c0 :: t).take 5 = ['f', 'a', 'l', 's', 'e']) := by
    intro h
    rw [List.take_succ_cons] at h
    exact hne.2.2.1 (List.cons.inj h).1
  have hD : ¬((c0 :: t).head? = some '"') := by
    rw [List.head?_cons]
    intro h
    exact hne.2.2.2 (Option.some.inj h)
  rw [parseJVal, if_neg hA, if_neg hB, if_neg hC, if_neg hD]

theorem parseJVal_jstr (s : String) (rest : List Char) :
    parseJVal (jsonStrChars s ++ rest) = some (JVal.jstr s, rest) := by
  rw [jsonStrChars, List.cons_append, List.cons_append, List.append_assoc]
  show parseJVal ('"' :: ((s.data.map jsonEscapeChar).flatten ++ ('"' :: rest))) = _
  have hA : ¬(('"' :: ((s.data.map jsonEscapeChar).flatten ++ ('"' :: rest))).take 4 =
      ['n', 'u', 'l', 'l']) := by
    intro h
    rw [List.take_succ_cons] at h
    exact absurd (List.cons.inj h).1 (by decide)
  have hB : ¬(('"' :: ((s.data.map jsonEscapeChar).flatten ++ ('"' :: rest))).take 4 =
      ['t', 'r', 'u', 'e']) := by
    intro h
    rw [List.take_succ_cons] at h
    exact absurd (List.cons.inj h).1 (by decide)
  have hC : ¬(('"' :: ((s.data.map jsonEscapeChar).flatten ++ ('"' :: rest))).take 5 =
      ['f', 'a', 'l', 's', 'e']) := by
    intro h
    rw [List.take_succ_cons] at h
    exact absurd (List.cons.inj h).1 (by decide)
  rw [parseJVal, if_neg hA, if_neg hB, if_neg hC, if_pos List.head?_cons,
    List.tail_cons, readStrBody_flatten]
  rfl

theorem parseJVal_cell (cell : Cell) (rest : List Char) (hr : numBd rest)
    (hsafe : jsonSafeCell cell = true) :
    parseJVal (jsonCellChars cell ++ rest) = some (jvalOfCell cell, rest) := by
  cases cell with
  | null => rfl
  | nan => exact absurd hsafe (by decide)
  | bool b => cases b <;> rfl
  | str s => exact parseJVal_jstr s rest
  | int n =>
      obtain ⟨c, t, hct, hc⟩ := renderInt_head n
      have h0 : (jsonCellChars (Cell.int n) ++ rest).head? = some c := by
        show (renderInt n ++ rest).head? = some c
        rw [hct, List.cons_append, List.head?_cons]
      rw [parseJVal_to_num c h0 hc]
      show (parseJNum (renderInt n ++ rest)).map _ = _
      rw [parseJNum_renderInt n rest hr]
      rfl
  | float q =>
      obtain ⟨c, t, hct, hc⟩ := renderFloat_head q
      have h0 : (jsonCellChars (Cell.float q) ++ rest).head? = some c := by
        show (renderFloat q ++ rest).head? = some c
        rw [hct, List.cons_append, List.head?_cons]
      rw [parseJVal_to_num c h0 hc]
      show (parseJNum (renderFloat q ++ rest)).map _ = _
      rw [parseJNum_renderFloat q rest hr hsafe]
      rfl

theorem digit_ne_space {c : Char} (h : isDigitC c = true) : c ≠ ' ' := by
  rintro rfl
  exact absurd h (by decide)

theorem jsonCellChars_shape (cell : Cell) :
    ∃ c0 t, jsonCellChars cell = c0 :: t ∧ c0 ≠ ' ' := by
  cases cell with
  | null => exact ⟨'n', _, rfl, by decide⟩
  | nan => exact ⟨'N', _, rfl, by decide⟩
  | bool b =>
      cases b
      · exact ⟨'f', _, rfl, by decide⟩
      · exact ⟨'t', _, rfl, by decide⟩
  | str s =>
      exact ⟨'"', (s.data.map jsonEscapeChar).flatten ++ ['"'], rfl, by decide⟩
  | int n =>
      obtain ⟨c, t, hct, hc⟩ := renderInt_head n
      refine ⟨c, t, hct, ?_⟩
      rcases hc with h | h
      · subst h; decide
      · exact digit_ne_space h
  | float q =>
      obtain ⟨c, t, hct, hc⟩ := renderFloat_head q
      refine ⟨c, t, hct, ?_⟩
      rcases hc with h | h
      · subst h; decide
      · exact digit_ne_space h

theorem skipSp_cell (cell : Cell) (tail : List Char) :
    skipSp (jsonCellChars cell ++ tail) = jsonCellChars cell ++ tail := by
  obtain ⟨c0, t, hct, hc⟩ := jsonCellChars_shape cell
  rw [hct, List.cons_append, skipSp, List.dropWhile_cons]
  simp [hc]

theorem skipSp_quote (l : List Char) : skipSp ('"' :: l) = '"' :: l := rfl

theorem skipSp_colon (l : List Char) : skipSp (':' :: l) = ':' :: l := rfl

theorem skipSp_rbrace (l : List Char) : skipSp ('}' :: l) = '}' :: l := rfl

theorem skipSp_space (l : List Char) : skipSp (' ' :: l) = skipSp l := rfl

theorem expectC_hit (c : Char) (l : List Char) : expectC c (c :: l) = some l := by
  rw [expectC, if_pos rfl]

theorem numBd_rbrace (rest : List Char) : numBd ('}' :: rest) := by
  intro c h
  simp only [List.head?_cons, Option.some.injEq] at h
  subst h
  exact ⟨by decide, by decide⟩

theorem numBd_comma (rest : List Char) : numBd (',' :: rest) := by
  intro c h
  simp only [List.head?_cons, Option.some.injEq] at h
  subst h
  exact ⟨by decide, by decide⟩

theorem parseMembers_space (f : Nat) (l : List Char) :
    parseMembers f (' ' :: l) = parseMembers f l := by
  cases f with
  | zero => rfl
  | succ f =>
      rw [parseMembers, parseMembers, show skipSp (' ' :: l) = skipSp l from rfl]

theorem parseMembers_one (f : Nat) (s : String) (cell : Cell) (tl : List Char)
    (hsafe : jsonSafeCell cell = true) (hbd : numBd tl) :
    parseMembers (f + 1)
      (jsonStrChars s ++ (':' :: ' ' :: (jsonCellChars cell ++ tl))) =
      (match skipSp tl with
       | ',' :: r4 => (parseMembers f r4).map
           (fun p => ((s, jvalOfCell cell) :: p.1, p.2))
       | '}' :: r4 => some ([(s, jvalOfCell cell)], r4)
       | _ => none) := by
  rw [jsonStrChars, List.cons_append, List.cons_append, List.append_assoc,
    List.singleton_append]
  rw [parseMembers, skipSp_quote, expectC_hit]
  simp only [Option.bind_eq_bind, Option.some_bind]
  rw [readStrBody_flatten]
  simp only [Option.some_bind]
  rw [skipSp_colon, expectC_hit]
  simp only [Option.some_bind]
  rw [skipSp_space, skipSp_cell, parseJVal_cell _ _ hbd hsafe]
  simp only [Option.some_bind]

theorem skipSp_comma (l : List Char) : skipSp (',' :: l) = ',' :: l := rfl

theorem parseMembers_pairs (cols : List Col) :
    ∀ (fuel : Nat) (i : Nat) (rest : List Char), cols ≠ [] →
      (∀ c ∈ cols, jsonSafeCell (cellAt c i) = true) →
      cols.length ≤ fuel →
      parseMembers fuel (pairsChars cols i ++ '}' :: rest) =
        some (cols.map (fun c => (c.name, jvalOfCell (cellAt c i))), rest) := by
  induction cols with
  | nil =>
      intro fuel i rest hne _ _
      exact absurd rfl hne
  | cons c cs ih =>
      intro fuel i rest _ hsafe hfuel
      rw [List.length_cons] at hfuel
      rcases fuel with _ | f
      · omega
      cases cs with
      | nil =>
          rw [show pairsChars [c] i =
              jsonStrChars c.name ++ (':' :: ' ' :: jsonCellChars (cellAt c i)) from rfl]
          rw [List.append_assoc, List.cons_append, List.cons_append]
          rw [parseMembers_one f c.name (cellAt c i) ('}' :: rest)
            (hsafe c (by simp)) (numBd_rbrace rest)]
          rw [skipSp_rbrace]
          rfl
      | cons c2 cs2 =>
          have hpe : pairsChars (c :: c2 :: cs2) i =
              jsonStrChars c.name ++ ((':' :: ' ' :: jsonCellChars (cellAt c i)) ++
                (',' :: ' ' :: pairsChars (c2 :: cs2) i)) := by
            simp only [pairsChars, List.append_assoc]
          rw [hpe]
          simp only [List.append_assoc, List.cons_append]
          rw [parseMembers_one f c.name (cellAt c i)
            (',' :: ' ' :: (pairsChars (c2 :: cs2) i ++ '}' :: rest))
            (hsafe c (by simp)) (numBd_comma _)]
          rw [skipSp_comma]
          show Option.map (fun p => ((c.name, jvalOfCell (cellAt c i)) :: p.1, p.2))
            (parseMembers f (' ' :: (pairsChars (c2 :: cs2) i ++ '}' :: rest))) = _
          rw [parseMembers_space]
          rw [ih f i rest (by simp) (fun x hx => hsafe x (List.mem_cons_of_mem c hx))
            (by rw [List.length_cons] at hfuel ⊢; omega)]
          rfl

theorem pairsChars_head (c : Col) (cs : List Col) (i : Nat) :
    ∃ t, pairsChars (c :: cs) i = '"' :: t := by
  cases cs with
  | nil =>
      simp only [pairsChars, jsonStrChars, List.cons_append, List.append_assoc]
      exact ⟨_, rfl⟩
  | cons c2 cs2 =>
      simp only [pairsChars, jsonStrChars, List.cons_append, List.append_assoc]
      exact ⟨_, rfl⟩

theorem pairsChars_length (cols : List Col) (i : Nat) :
    cols.length ≤ (pairsChars cols i).length := by
  induction cols with
  | nil => simp [pairsChars]
  | cons c cs ih =>
      cases cs with
      | nil =>
          simp [pairsChars, jsonStrChars]
      | cons c2 cs2 =>
          rw [List.length_cons] at ih ⊢
          simp only [pairsChars, jsonStrChars, List.cons_append, List.append_assoc,
            List.length_append, List.length_cons] at ih ⊢
          omega

theorem parseJObj_row (cols : List Col) (i : Nat)
    (hsafe : ∀ c ∈ cols, jsonSafeCell (cellAt c i) = true) :
    parseJObj (String.mk (rowChars cols i)) =
      some (cols.map (fun c => (c.name, jvalOfCell (cellAt c i)))) := by
  cases cols with
  | nil =>
      rw [show rowChars [] i = ['{', '}'] from by simp [rowChars, pairsChars]]
      rfl
  | cons c cs =>
      obtain ⟨t, ht⟩ := pairsChars_head c cs i
      rw [parseJObj]
      have hsd : skipSp (String.mk (rowChars (c :: cs) i)).data =
          '{' :: (pairsChars (c :: cs) i ++ ['}']) := by
        show skipSp (rowChars (c :: cs) i) = _
        rw [rowChars, List.cons_append]
        rfl
      rw [hsd, ht, List.cons_append]
      show (parseMembers (('"' :: (t ++ ['}'])).length + 1) ('"' :: (t ++ ['}']))).bind
          (fun p => if skipSp p.2 = [] then some p.1 else none) = _
      rw [← List.cons_append, ← ht]
      have hfuel : (c :: cs).length ≤ (pairsChars (c :: cs) i ++ ['}']).length + 1 := by
        have h := pairsChars_length (c :: cs) i
        rw [List.length_append]
        simp only [List.length_cons, List.length_nil] at h ⊢
        omega
      rw [parseMembers_pairs (c :: cs) _ i [] (by simp) hsafe hfuel]
      rfl

/-- C5 counterexample: row count is preserved, but not every line is
well-formed JSON.  A `double`-typed column whose cell fails to parse comes
out of the cast as float NaN, and `json.dumps` serializes that cell as the
bare literal `NaN`; the resulting line `{"x": NaN}` is rejected by the JSON
grammar (`parseJObj` returns `none`). -/
theorem c5_counterexample_nan_line :
    export_to_ndjson (cast_types ⟨1, [⟨("x"), Dtype.obj, [Cell.str ("bad")]⟩]⟩
        [⟨("x"), ("double")⟩]) = ("\x7b\"x\": NaN\x7d\n") ∧
    (("\x7b\"x\": NaN\x7d\n") : String).data.count '\n' = 1 ∧
    parseJObj ("\x7b\"x\": NaN\x7d") = none :=
  ⟨by decide, by decide, by decide⟩

/-- C5 (amended): the serializer emits exactly `df.nrows` newline-terminated
lines (an empty frame gives the empty string), and row `i`'s line parses as
a single flat JSON object whose keys are the column names and whose values
are the row's cell values — provided every cell of the row serializes to
valid JSON; a float-NaN cell (the encoding of a failed cast) instead prints
as the bare literal `NaN`, which no JSON parser accepts. -/
theorem c5_amended_serializer (df : DataFrame) :
    (export_to_ndjson df).data.count '\n' = df.nrows ∧
    (df.nrows = 0 → export_to_ndjson df = ("")) ∧
    (∀ i, i < df.nrows → (∀ c ∈ df.cols, jsonSafeCell (cellAt c i) = true) →
      parseJObj (String.mk (rowChars df.cols i)) =
        some (df.cols.map (fun c => (c.name, jvalOfCell (cellAt c i))))) :=
  ⟨export_count df, fun h => export_empty h, fun i _ hs => parseJObj_row df.cols i hs⟩

/-- Witness for C5 (amended): a one-row, one-column frame has one line, and
that line parses back to its column name and value. -/
theorem c5_amended_serializer_witness :
    (export_to_ndjson ⟨1, [⟨("a"), Dtype.intDt, [Cell.int 7]⟩]⟩).data.count '\n' = 1 ∧
    parseJObj (String.mk (rowChars [⟨("a"), Dtype.intDt, [Cell.int 7]⟩] 0)) =
      some [(("a"), JVal.jnum ((7 : ℤ) : ℚ))] :=
  ⟨(c5_amended_serializer ⟨1, [⟨("a"), Dtype.intDt, [Cell.int 7]⟩]⟩).1,
   (c5_amended_serializer ⟨1, [⟨("a"), Dtype.intDt, [Cell.int 7]⟩]⟩).2.2 0
     (by decide) (by decide)⟩

/-- Witness for C8 (amended): in the run where the first table's fetch
raises, no temp file for either table remains. -/
theorem c8_amended_cleanup_witness :
    (("dashboard_data") ∈ tableNames ∧
      envFirstFetchFails.raiseAt ("dashboard_data") Stage.publishStage = false ∧
      fsGet (mainRun envFirstFetchFails).1 (("dashboard_data") ++ (".json")) = none) ∧
    (("dashboard_published_data") ∈ tableNames ∧
      envFirstFetchFails.raiseAt ("dashboard_published_data") Stage.publishStage = false ∧
      fsGet (mainRun envFirstFetchFails).1 (("dashboard_published_data") ++ (".json")) = none) :=
  ⟨⟨by decide, rfl,
    c8_amended_cleanup envFirstFetchFails (("dashboard_data")) (by decide) rfl⟩,
   ⟨by decide, rfl,
    c8_amended_cleanup envFirstFetchFails (("dashboard_published_data")) (by decide) rfl⟩⟩

end Ingesta
